import Mathlib

/-!
# Flycast memory engine: attachment core

A shallow embedding of `Source/FlycastProcess` (the Linux probe
`LinuxFlycastProcess`, whose triangulation loop and swap switch are repeated line
for line by the Windows and macOS probes, the facade `FlycastAccessor`, the
process discovery of the macOS probe and the region filter of the Windows probe),
followed by the properties established about it.

Conventions.
* `uint64_t` values are natural numbers below `2^64`; every `+` and `-` of the
  source on such values is written with an explicit `% 2^64`.
* `std::unordered_map<uint64_t, Acc>` is an association list with
  insert-or-update; the order in which the source iterates over the map is not
  fixed by the language, so the selection loop takes the iteration sequence as an
  argument and the properties quantify over every permutation of the map.
* The per-candidate counters are `int` in the source; they count regions, so they
  are modelled as natural numbers (overflow would need `2^31` regions).
-/

namespace FlycastComm

/-! ## Data model -/

/-- Wrapping `uint64_t` addition. -/
def add64 (a b : Nat) : Nat := (a + b) % 18446744073709551616

/-- Wrapping `uint64_t` subtraction (for operands below `2^64`). -/
def sub64 (a b : Nat) : Nat := (a + 18446744073709551616 - b) % 18446744073709551616

/-- The layout constant `OFF_VRAM`. -/
def OFF_VRAM : Nat := 0x04000000

/-- The layout constant `OFF_MAIN`. -/
def OFF_MAIN : Nat := 0x0C000000

/-- The layout constant `OFF_AICA`. -/
def OFF_AICA : Nat := 0x20000000

/-- The struct `LinuxFlycastProcess::Region`: a span `[base, base + size)`. -/
structure Region where
  base : Nat
  size : Nat
deriving DecidableEq, Repr

/-- A region list holds `uint64_t` values. -/
@[reducible] def RegionsWF (regs : List Region) : Prop :=
  ∀ r ∈ regs, r.base < 18446744073709551616 ∧ r.size < 18446744073709551616

/-- The local struct `Acc` of `triangulateArenaBase`: votes per offset. -/
structure Acc where
  v : Nat
  m : Nat
  a : Nat
deriving DecidableEq, Repr

/-! ## ArenaTriangulator -/

/-- The function `addressInRegionList`: point-in-region test over the snapshot. -/
def addressInRegionList (addr : Nat) : List Region → Bool
  | [] => false
  | r :: rest =>
    if addr ≥ r.base ∧ addr < add64 r.base r.size then true
    else addressInRegionList addr rest

/-- The expression `cand[k].field++` on the candidate map: the entry of `k` is
created with zero votes when absent, then `f` bumps one of its counters. -/
def candUpdate (f : Acc → Acc) (k : Nat) : List (Nat × Acc) → List (Nat × Acc)
  | [] => [(k, f ⟨0, 0, 0⟩)]
  | e :: rest => if e.1 = k then (e.1, f e.2) :: rest else e :: candUpdate f k rest

/-- The body of the first loop of `triangulateArenaBase`: the three votes of one
region. -/
def voteRegion (c : List (Nat × Acc)) (r : Region) : List (Nat × Acc) :=
  let c1 := candUpdate (fun x => { x with v := x.v + 1 }) (sub64 r.base OFF_VRAM) c
  let c2 := candUpdate (fun x => { x with m := x.m + 1 }) (sub64 r.base OFF_MAIN) c1
  candUpdate (fun x => { x with a := x.a + 1 }) (sub64 r.base OFF_AICA) c2

/-- The first loop of `triangulateArenaBase`: the candidate map of a region list. -/
def buildCand (regs : List Region) : List (Nat × Acc) :=
  regs.foldl voteRegion []

/-- The expression `(acc.m > 0) + (acc.v > 0) + (acc.a > 0)`. -/
def scoreOf (acc : Acc) : Int :=
  (if acc.m > 0 then 1 else 0) + (if acc.v > 0 then 1 else 0) + (if acc.a > 0 then 1 else 0)

/-- The body of the second loop of `triangulateArenaBase` on the pair
`(best, bestScore)`. -/
def selectStep (regs : List Region) (st : Nat × Int) (kv : Nat × Acc) : Nat × Int :=
  if kv.1 = 0 then st
  else if addressInRegionList (add64 kv.1 OFF_MAIN) regs = false then st
  else if addressInRegionList (add64 kv.1 OFF_VRAM) regs = false then st
  else if scoreOf kv.2 > st.2 then (kv.1, scoreOf kv.2) else st

/-- The second loop of `triangulateArenaBase`, run over the candidates in the
sequence `iter`, from `best = 0`, `bestScore = -1`. -/
def selectBest (regs : List Region) (iter : List (Nat × Acc)) : Nat × Int :=
  iter.foldl (selectStep regs) (0, -1)

/-- The function `triangulateArenaBase`, with the iteration sequence of the
candidate map made explicit: `some best` stands for `true` with
`out_ram_base = best`, `none` for `false`. -/
def triangulateIter (regs : List Region) (iter : List (Nat × Acc)) : Option Nat :=
  if (selectBest regs iter).2 ≥ 2 then some (selectBest regs iter).1 else none

/-- The function `triangulateArenaBase` when the map is iterated in insertion
order. -/
def triangulateArenaBase (regs : List Region) : Option Nat :=
  triangulateIter regs (buildCand regs)

/-- The candidate vote of `WindowsFlycastProcess::locateFlycastArenaBase` on the
captured region list: it returns early on an empty list and otherwise runs the
same two loops (`isWorkingSetValid` is consulted but never vetoes). -/
def locateFlycastArenaBase (regs : List Region) (iter : List (Nat × Acc)) : Option Nat :=
  if regs.isEmpty then none else triangulateIter regs iter

/-- The votes recorded for candidate `k`, if it is a key of the map. -/
def candFind (k : Nat) : List (Nat × Acc) → Option Acc
  | [] => none
  | e :: rest => if e.1 = k then some e.2 else candFind k rest

/-- The score of candidate `k` in the candidate map of `regs` (`0` when `k` is
not a candidate). -/
def candScore (regs : List Region) (k : Nat) : Int :=
  match candFind k (buildCand regs) with
  | some acc => scoreOf acc
  | none => 0

/-- The votes of a region list for candidate `k`, counted directly. -/
def tally (k : Nat) : List Region → Acc
  | [] => ⟨0, 0, 0⟩
  | r :: rest =>
    ⟨(tally k rest).v + (if sub64 r.base OFF_VRAM = k then 1 else 0),
     (tally k rest).m + (if sub64 r.base OFF_MAIN = k then 1 else 0),
     (tally k rest).a + (if sub64 r.base OFF_AICA = k then 1 else 0)⟩

/-- Componentwise sum of two vote records. -/
def accAdd (x y : Acc) : Acc := ⟨x.v + y.v, x.m + y.m, x.a + y.a⟩

/-- The gate of the second loop: the candidate is not the zero sentinel and both
its MAIN and VRAM targets pass the point-in-region test. -/
def gateOk (regs : List Region) (k : Nat) : Bool :=
  decide (k ≠ 0) && addressInRegionList (add64 k OFF_MAIN) regs
    && addressInRegionList (add64 k OFF_VRAM) regs

/-- Whether `addr` is exactly the base address of a listed region. -/
def isRegionBase (addr : Nat) (regs : List Region) : Bool :=
  regs.any (fun r => decide (r.base = addr))

/-! ## Byte buffers and the swap switch -/

/-- A byte of a `char` buffer. -/
abbrev Byte := Fin 256

/-- The call `std::memcpy(&v, buffer, n)` into an unsigned integer on a
little-endian host. -/
def loadLE : List Byte → Nat
  | [] => 0
  | b :: rest => b.val + 256 * loadLE rest

/-- The call `std::memcpy(buffer, &v, n)` from an unsigned integer on a
little-endian host. -/
def storeLE : Nat → Nat → List Byte
  | 0, _ => []
  | n + 1, v => ⟨v % 256, Nat.mod_lt v (by decide)⟩ :: storeLE n (v / 256)

/-- Modelled from the spec: `Common::bSwap16` (a helper declared under `Common/`,
which is not among the sources); the byte swap of a 16-bit value,
`(v >> 8) | (v << 8)` truncated to 16 bits. -/
def bSwap16 (v : Nat) : Nat := (v / 256 + v * 256) % 65536

/-- Modelled from the spec: `Common::bSwap32` (a helper declared under `Common/`,
which is not among the sources); the byte swap of a 32-bit value, the two swapped
halves exchanged. -/
def bSwap32 (v : Nat) : Nat :=
  (bSwap16 (v % 65536) * 65536 + bSwap16 (v / 65536)) % 4294967296

/-- Modelled from the spec: `Common::bSwap64` (a helper declared under `Common/`,
which is not among the sources); the byte swap of a 64-bit value, the two swapped
halves exchanged. -/
def bSwap64 (v : Nat) : Nat :=
  (bSwap32 (v % 4294967296) * 4294967296 + bSwap32 (v / 4294967296)) % 18446744073709551616

/-- The `switch (size)` of `readFromRAM` / `writeToRAM` under `withBSwap`: one swap
of the leading 2, 4 or 8 bytes when `size` is 2, 4 or 8, nothing otherwise. -/
def swapBySize (size : Nat) (buf : List Byte) : List Byte :=
  if size = 2 then storeLE 2 (bSwap16 (loadLE (buf.take 2))) ++ buf.drop 2
  else if size = 4 then storeLE 4 (bSwap32 (loadLE (buf.take 4))) ++ buf.drop 4
  else if size = 8 then storeLE 8 (bSwap64 (loadLE (buf.take 8))) ++ buf.drop 8
  else buf

/-! ## The host system seen by the Linux probe -/

/-- One line of `/proc/<pid>/maps` that `parse_maps_line` could split into its
address range and permission field (other lines are skipped by the reader). -/
structure MapsLine where
  start : Nat
  stop : Nat
  perms : List Char
deriving DecidableEq, Repr

/-- The operating-system and runtime services the probe calls, over a state `σ`
of the outside world.
* `procEntries`: the numeric entries of `/proc/` whose `comm` file could be read,
  as `(pid, name)` in `readdir` order, or `none` when `opendir` fails;
* `envOverride`: the value of `getenv("DME_FLYCAST_PROCESS_NAME")`;
* `procMaps`: the parsed lines of `/proc/<pid>/maps`, or `none` when the file
  cannot be opened;
* `mapIter`: the order in which the runtime iterates over an unordered map;
* `process_vm_readv`: the return value, the bytes transferred into the local
  buffer and the new state of the world;
* `process_vm_writev`: the return value and the new state of the world. -/
structure Host (σ : Type) where
  procEntries : σ → Option (List (Int × String))
  envOverride : σ → Option String
  procMaps : σ → Int → Option (List MapsLine)
  mapIter : List (Nat × Acc) → List (Nat × Acc)
  process_vm_readv : σ → Int → Nat → Nat → Int × List Byte × σ
  process_vm_writev : σ → Int → Nat → List Byte → Int × σ

/-- The protected members of `IFlycastProcess`, with their default initialisers. -/
structure Probe where
  m_PID : Int := -1
  m_emuRAMAddressStart : Nat := 0
  m_emuARAMAdressStart : Nat := 0
  m_ARAMAccessible : Bool := false
deriving DecidableEq, Repr

/-- The name test of `LinuxFlycastProcess::findPID`. -/
def nameMatches (envOverride : Option String) (name : String) : Bool :=
  match envOverride with
  | some o => decide (name = o)
  | none => decide (name = "flycast") || decide (name = "flycast-qt")
      || decide (name = "flycast-qt6")

/-- The `readdir` loop of `LinuxFlycastProcess::findPID`: the PID of the first
matching entry (the loop breaks there). -/
def scanProc (envOverride : Option String) : List (Int × String) → Option Int
  | [] => none
  | e :: rest => if nameMatches envOverride e.2 then some e.1 else scanProc envOverride rest

/-- The method `LinuxFlycastProcess::findPID`. -/
def findPID {σ : Type} (h : Host σ) (w : σ) (p : Probe) : Bool × Probe :=
  match h.procEntries w with
  | none => (false, p)
  | some es =>
    let pid := (scanProc (h.envOverride w) es).getD (-1)
    (decide (pid ≠ -1), { p with m_PID := pid })

/-- The permission test of `readProcMaps`: the field begins with `rw`. -/
def permsRW : List Char → Bool
  | 'r' :: 'w' :: _ => true
  | _ => false

/-- The filter of `readProcMaps` on one parsed line: `parse_maps_line` demands
`end > start`, the reader demands `rw`. -/
def keepLine (l : MapsLine) : Option Region :=
  if l.stop > l.start ∧ permsRW l.perms = true then some ⟨l.start, l.stop - l.start⟩ else none

/-- The method `LinuxFlycastProcess::readProcMaps`: the result flag and
`out_regions`. -/
def readProcMaps {σ : Type} (h : Host σ) (w : σ) (pid : Int) : Bool × List Region :=
  match h.procMaps w pid with
  | none => (false, [])
  | some lines => (!(lines.filterMap keepLine).isEmpty, lines.filterMap keepLine)

/-- The method `LinuxFlycastProcess::obtainEmuRAMInformations`. -/
def obtainEmuRAMInformations {σ : Type} (h : Host σ) (w : σ) (p : Probe) : Bool × Probe × σ :=
  if p.m_PID ≤ 0 then (false, p, w)
  else if (readProcMaps h w p.m_PID).1 = false then (false, p, w)
  else
    match triangulateIter (readProcMaps h w p.m_PID).2
        (h.mapIter (buildCand (readProcMaps h w p.m_PID).2)) with
    | none => (false, p, w)
    | some ram_base =>
      let p1 : Probe :=
        { p with
          m_emuRAMAddressStart := add64 ram_base OFF_MAIN
          m_emuARAMAdressStart := add64 ram_base OFF_AICA
          m_ARAMAccessible := true }
      let r := h.process_vm_readv w p.m_PID p1.m_emuRAMAddressStart 16
      if r.1 ≠ 16 then (false, p1, r.2.2) else (true, p1, r.2.2)

/-- The local buffer after a transfer: the transferred bytes replace its head. -/
def overlay (data buf : List Byte) : List Byte :=
  data ++ buf.drop data.length

/-- The method `LinuxFlycastProcess::readFromRAM`; a null `buffer` is `none`. The
result is the return value, the caller's buffer afterwards and the world. -/
def Probe.readFromRAM {σ : Type} (h : Host σ) (p : Probe) (w : σ) (offset : Nat)
    (buffer : Option (List Byte)) (size : Nat) (withBSwap : Bool) :
    Bool × Option (List Byte) × σ :=
  match buffer with
  | none => (false, none, w)
  | some buf =>
    if p.m_PID ≤ 0 ∨ size = 0 ∨ p.m_emuRAMAddressStart = 0 then (false, some buf, w)
    else
      let r := h.process_vm_readv w p.m_PID (add64 p.m_emuRAMAddressStart offset) size
      if r.1 ≠ (size : Int) then (false, some (overlay r.2.1 buf), r.2.2)
      else if withBSwap then (true, some (swapBySize size (overlay r.2.1 buf)), r.2.2)
      else (true, some (overlay r.2.1 buf), r.2.2)

/-- The bytes `src` handed to the transfer by `writeToRAM`: the caller's buffer, or
under `withBSwap` the temporary copy `tmp` after the swap switch. -/
def writeSource (buf : List Byte) (size : Nat) (withBSwap : Bool) : List Byte :=
  if withBSwap then swapBySize size (buf.take size) else buf.take size

/-- The method `LinuxFlycastProcess::writeToRAM`; a null `buffer` is `none`. The
result is the return value, the caller's buffer afterwards and the world. -/
def Probe.writeToRAM {σ : Type} (h : Host σ) (p : Probe) (w : σ) (offset : Nat)
    (buffer : Option (List Byte)) (size : Nat) (withBSwap : Bool) :
    Bool × Option (List Byte) × σ :=
  match buffer with
  | none => (false, none, w)
  | some buf =>
    if p.m_PID ≤ 0 ∨ size = 0 ∨ p.m_emuRAMAddressStart = 0 then (false, some buf, w)
    else
      let r := h.process_vm_writev w p.m_PID (add64 p.m_emuRAMAddressStart offset)
        (writeSource buf size withBSwap)
      (decide (r.1 = (size : Int)), some buf, r.2)

/-! ## The facade `FlycastAccessor` -/

/-- The enum `FlycastAccessor::FlycastStatus`. -/
inductive FlycastStatus where
  | hooked
  | notRunning
  | noEmu
  | unHooked
deriving DecidableEq, Repr

/-- The static members of `FlycastAccessor` (`m_instance` is `none` for
`nullptr`), together with the number of probe objects that were allocated with
`new` and not yet deleted. -/
structure FlycastAccessor where
  m_instance : Option Probe
  m_status : FlycastStatus
  liveProbes : Nat
deriving DecidableEq, Repr

/-- The static initialisers of `FlycastAccessor`. -/
def FlycastAccessor.initial : FlycastAccessor :=
  { m_instance := none, m_status := FlycastStatus.notRunning, liveProbes := 0 }

/-- The helper `FlycastAccessor::init` of the Linux build: `m_instance` is
overwritten with a freshly allocated probe (the stray `return nullptr;` is inert). -/
def FlycastAccessor.init (f : FlycastAccessor) : FlycastAccessor :=
  { f with m_instance := some {}, liveProbes := f.liveProbes + 1 }

/-- The method `FlycastAccessor::hook`. -/
def FlycastAccessor.hook {σ : Type} (h : Host σ) (f : FlycastAccessor) (w : σ) :
    FlycastAccessor × σ :=
  let f1 := f.init
  let fp := findPID h w {}
  if fp.1 = false then
    ({ f1 with m_instance := some fp.2, m_status := FlycastStatus.notRunning }, w)
  else
    let r := obtainEmuRAMInformations h w fp.2
    if r.1 = false then
      ({ f1 with m_instance := some r.2.1, m_status := FlycastStatus.noEmu }, r.2.2)
    else
      ({ f1 with m_instance := some r.2.1, m_status := FlycastStatus.hooked }, r.2.2)

/-- The method `FlycastAccessor::unHook`: `delete m_instance` (a no-op on
`nullptr`), then the pointer and the status are reset. -/
def FlycastAccessor.unHook (f : FlycastAccessor) : FlycastAccessor :=
  { m_instance := none
    m_status := FlycastStatus.notRunning
    liveProbes := if f.m_instance.isSome then f.liveProbes - 1 else f.liveProbes }

/-- The method `FlycastAccessor::readFromRAM`. -/
def FlycastAccessor.readFromRAM {σ : Type} (h : Host σ) (f : FlycastAccessor) (w : σ)
    (offset : Nat) (buffer : Option (List Byte)) (size : Nat) (withBSwap : Bool) :
    Bool × Option (List Byte) × σ :=
  match f.m_instance with
  | none => (false, buffer, w)
  | some p =>
    if f.m_status ≠ FlycastStatus.hooked then (false, buffer, w)
    else p.readFromRAM h w offset buffer size withBSwap

/-- The method `FlycastAccessor::writeToRAM`. -/
def FlycastAccessor.writeToRAM {σ : Type} (h : Host σ) (f : FlycastAccessor) (w : σ)
    (offset : Nat) (buffer : Option (List Byte)) (size : Nat) (withBSwap : Bool) :
    Bool × Option (List Byte) × σ :=
  match f.m_instance with
  | none => (false, buffer, w)
  | some p =>
    if f.m_status ≠ FlycastStatus.hooked then (false, buffer, w)
    else p.writeToRAM h w offset buffer size withBSwap

/-- The method `FlycastAccessor::getStatus`. -/
def FlycastAccessor.getStatus (f : FlycastAccessor) : FlycastStatus := f.m_status

/-- The method `FlycastAccessor::getPID`. -/
def FlycastAccessor.getPID (f : FlycastAccessor) : Int :=
  match f.m_instance with
  | some p => p.m_PID
  | none => -1

/-- The method `FlycastAccessor::getRAMAddressStart`. -/
def FlycastAccessor.getRAMAddressStart (f : FlycastAccessor) : Nat :=
  match f.m_instance with
  | some p => p.m_emuRAMAddressStart
  | none => 0

/-- The method `FlycastAccessor::getARAMAddressStart`. -/
def FlycastAccessor.getARAMAddressStart (f : FlycastAccessor) : Nat :=
  match f.m_instance with
  | some p => p.m_emuARAMAdressStart
  | none => 0

/-- The method `FlycastAccessor::isARAMAccessible`. -/
def FlycastAccessor.isARAMAccessible (f : FlycastAccessor) : Bool :=
  match f.m_instance with
  | some p => p.m_ARAMAccessible
  | none => false

/-- The call `getenv(name)` on a process environment given as `(name, value)`
pairs: the value of the first entry of that name, `none` for a null result. -/
def getenv (environ : List (String × String)) (name : String) : Option String :=
  match environ with
  | [] => none
  | e :: rest => if e.1 = name then some e.2 else getenv rest name

/-! ## A stub host: one target process whose memory is a byte array -/

/-- The outside world of the stub: the process table, the maps of the target,
the byte array `ram` of `ramSize` bytes mapped at host address `ramBase`, the
number of bytes each read falls short by (zero for a faithful stub), the log of the
transfer calls performed so far as `(address, length)` and the environment of the
inspecting process. -/
structure Stub where
  procs : List (Int × String)
  pid : Int
  maps : List MapsLine
  ramBase : Nat
  ramSize : Nat
  ram : Nat → Byte
  shortBy : Nat
  calls : List (Nat × Nat)
  environ : List (String × String) := []

/-- The bytes of the array at offsets `off, …, off + len - 1`. -/
def Stub.slice (w : Stub) (off len : Nat) : List Byte :=
  (List.range len).map (fun i => w.ram (off + i))

/-- The array after `data` has been stored at offset `off`. -/
def storeAt (ram : Nat → Byte) (off : Nat) (data : List Byte) : Nat → Byte :=
  fun i => if h : off ≤ i ∧ i - off < data.length then data.get ⟨i - off, h.2⟩ else ram i

/-- The transfer services of the stub: a transfer inside the array of the target
moves all requested bytes (less `shortBy` on reads), any other fails with `-1`;
every call is logged. The runtime iterates the map in the order `iter`. -/
def stubHost (iter : List (Nat × Acc) → List (Nat × Acc)) : Host Stub where
  procEntries := fun w => some w.procs
  envOverride := fun w => getenv w.environ "DME_FLYCAST_PROCESS_NAME"
  procMaps := fun w pid => if pid = w.pid then some w.maps else none
  mapIter := iter
  process_vm_readv := fun w pid addr len =>
    if pid = w.pid ∧ w.ramBase ≤ addr ∧ addr + len ≤ w.ramBase + w.ramSize then
      (((len - w.shortBy : Nat) : Int), w.slice (addr - w.ramBase) (len - w.shortBy),
        { w with calls := (addr, len) :: w.calls })
    else (-1, [], { w with calls := (addr, len) :: w.calls })
  process_vm_writev := fun w pid addr data =>
    if pid = w.pid ∧ w.ramBase ≤ addr ∧ addr + data.length ≤ w.ramBase + w.ramSize then
      ((data.length : Int),
        { w with ram := storeAt w.ram (addr - w.ramBase) data
                 calls := (addr, data.length) :: w.calls })
    else (-1, { w with calls := (addr, data.length) :: w.calls })

/-- The happy-path scenario: the four regions of the arena at `0x1_0000_0000`. -/
def happyMaps : List MapsLine :=
  [⟨0x100000000, 0x100100000, ['r', 'w', '-', 'p']⟩,
   ⟨0x104000000, 0x104800000, ['r', 'w', '-', 'p']⟩,
   ⟨0x10C000000, 0x10D000000, ['r', 'w', '-', 'p']⟩,
   ⟨0x120000000, 0x120200000, ['r', 'w', '-', 'p']⟩]

/-- The happy-path world: process 4242 is `flycast`, its main RAM is a zeroed
16 MiB array at `0x1_0C00_0000`. -/
def happyWorld : Stub :=
  { procs := [(1, "init"), (4242, "flycast")]
    pid := 4242
    maps := happyMaps
    ramBase := 0x10C000000
    ramSize := 16777216
    ram := fun _ => 0
    shortBy := 0
    calls := [] }

/-- The probe `p` is attached to the target of the stub world `w`: it holds the
PID of the target, its main-RAM address is the (non-null) address of the byte
array, the array lies inside the 64-bit address space and reads are not cut
short. -/
def ProbeAttached (p : Probe) (w : Stub) : Prop :=
  p.m_PID = w.pid ∧ 0 < w.pid ∧ p.m_emuRAMAddressStart = w.ramBase ∧ 0 < w.ramBase ∧
    w.ramBase + w.ramSize ≤ 18446744073709551616 ∧ w.shortBy = 0

/-- The facade is hooked on the target of the stub world `w`. -/
def Attached (f : FlycastAccessor) (w : Stub) : Prop :=
  f.m_status = FlycastStatus.hooked ∧ ∃ p, f.m_instance = some p ∧ ProbeAttached p w

/-- The swap policy of the spec: the whole buffer is reversed when the swap flag
is set and the length is 2, 4 or 8; it is left as it is otherwise. -/
def swapPolicy (withBSwap : Bool) (size : Nat) (bytes : List Byte) : List Byte :=
  if withBSwap = true ∧ (size = 2 ∨ size = 4 ∨ size = 8) then bytes.reverse else bytes

/-- The process `findPID` settles on, if any: the first matching entry of the
enumeration. -/
def foundPID {σ : Type} (h : Host σ) (w : σ) : Option Int :=
  (h.procEntries w).bind (scanProc (h.envOverride w))

/-- The region list `obtainEmuRAMInformations` works on for process `pid`. -/
def regionsOf {σ : Type} (h : Host σ) (w : σ) (pid : Int) : List Region :=
  (readProcMaps h w pid).2

/-- The result of the triangulation for process `pid`, the candidate map being
iterated in the order of the runtime. -/
def arenaOf {σ : Type} (h : Host σ) (w : σ) (pid : Int) : Option Nat :=
  triangulateIter (regionsOf h w pid) (h.mapIter (buildCand (regionsOf h w pid)))

/-- The number of bytes the 16-byte probe read at `B + OFF_MAIN` transfers. -/
def probeBytes {σ : Type} (h : Host σ) (w : σ) (pid : Int) (B : Nat) : Int :=
  (h.process_vm_readv w pid (add64 B OFF_MAIN) 16).1

/-- The happy-path region list, as read from `happyMaps`. -/
def happyRegions : List Region :=
  [⟨0x100000000, 0x100000⟩, ⟨0x104000000, 0x800000⟩, ⟨0x10C000000, 0x1000000⟩,
   ⟨0x120000000, 0x200000⟩]

/-- The probe-fails scenario: the happy-path world whose reads return one byte
less than requested (15 instead of 16). -/
def shortWorld : Stub := { happyWorld with shortBy := 1 }

/-- The no-process scenario: the happy-path world without a `flycast` process. -/
def emptyWorld : Stub := { happyWorld with procs := [(1, "init")] }

/-- The Missing-AICA scenario: the happy-path world without the region at
`0x1_2000_0000`. -/
def missingAicaWorld : Stub := { happyWorld with maps := happyMaps.take 3 }

/-! ## The remaining facade methods and the call sequence -/

/-- The method `FlycastAccessor::getRAMTotalSize`: the constant `16 * 1024 * 1024`,
whatever the state of the facade. -/
def FlycastAccessor.getRAMTotalSize (_f : FlycastAccessor) : Nat := 16 * 1024 * 1024

/-- The method `FlycastAccessor::isValidConsoleAddress`: the comparison is made on
`u32` values, the size being cast to `u32`. -/
def FlycastAccessor.isValidConsoleAddress (f : FlycastAccessor) (consoleAddress : Nat) : Bool :=
  decide (consoleAddress < f.getRAMTotalSize % 4294967296)

/-- The method `FlycastAccessor::readEntireRAM`; `true` stands for
`MemOperationReturnCode::OK`, `false` for `operationFailed`. -/
def FlycastAccessor.readEntireRAM {σ : Type} (h : Host σ) (f : FlycastAccessor) (w : σ)
    (buffer : Option (List Byte)) : Bool × Option (List Byte) × σ :=
  match f.m_instance with
  | none => (false, buffer, w)
  | some _ =>
    if f.m_status ≠ FlycastStatus.hooked then (false, buffer, w)
    else
      let r := f.readFromRAM h w 0 buffer f.getRAMTotalSize false
      if r.1 = false then (false, r.2.1, r.2.2) else (true, r.2.1, r.2.2)

/-- The method `LinuxFlycastProcess::readFromRAM` as a transition of the probe
object: the members after the call, together with what the call returns (return
value, caller's buffer, world). Every path of the method is followed; none of them
assigns a member. -/
def Probe.readFromRAMCall {σ : Type} (h : Host σ) (p : Probe) (w : σ) (offset : Nat)
    (buffer : Option (List Byte)) (size : Nat) (withBSwap : Bool) :
    Probe × (Bool × Option (List Byte) × σ) :=
  match buffer with
  | none => (p, (false, none, w))
  | some buf =>
    if p.m_PID ≤ 0 ∨ size = 0 ∨ p.m_emuRAMAddressStart = 0 then (p, (false, some buf, w))
    else
      let r := h.process_vm_readv w p.m_PID (add64 p.m_emuRAMAddressStart offset) size
      if r.1 ≠ (size : Int) then (p, (false, some (overlay r.2.1 buf), r.2.2))
      else if withBSwap then (p, (true, some (swapBySize size (overlay r.2.1 buf)), r.2.2))
      else (p, (true, some (overlay r.2.1 buf), r.2.2))

/-- The method `LinuxFlycastProcess::writeToRAM` as a transition of the probe
object: the members after the call, together with what the call returns. Every path
of the method is followed; none of them assigns a member. -/
def Probe.writeToRAMCall {σ : Type} (h : Host σ) (p : Probe) (w : σ) (offset : Nat)
    (buffer : Option (List Byte)) (size : Nat) (withBSwap : Bool) :
    Probe × (Bool × Option (List Byte) × σ) :=
  match buffer with
  | none => (p, (false, none, w))
  | some buf =>
    if p.m_PID ≤ 0 ∨ size = 0 ∨ p.m_emuRAMAddressStart = 0 then (p, (false, some buf, w))
    else
      let r := h.process_vm_writev w p.m_PID (add64 p.m_emuRAMAddressStart offset)
        (writeSource buf size withBSwap)
      (p, (decide (r.1 = (size : Int)), some buf, r.2))

/-- The method `FlycastAccessor::readFromRAM` as a transition of the facade: the
statics after the call (`m_instance` pointing to the probe object as the delegated
call left it), together with what the call returns. -/
def FlycastAccessor.readFromRAMCall {σ : Type} (h : Host σ) (f : FlycastAccessor) (w : σ)
    (offset : Nat) (buffer : Option (List Byte)) (size : Nat) (withBSwap : Bool) :
    FlycastAccessor × (Bool × Option (List Byte) × σ) :=
  match f.m_instance with
  | none => (f, (false, buffer, w))
  | some p =>
    if f.m_status ≠ FlycastStatus.hooked then (f, (false, buffer, w))
    else
      let r := p.readFromRAMCall h w offset buffer size withBSwap
      ({ f with m_instance := some r.1 }, r.2)

/-- The method `FlycastAccessor::writeToRAM` as a transition of the facade: the
statics after the call, together with what the call returns. -/
def FlycastAccessor.writeToRAMCall {σ : Type} (h : Host σ) (f : FlycastAccessor) (w : σ)
    (offset : Nat) (buffer : Option (List Byte)) (size : Nat) (withBSwap : Bool) :
    FlycastAccessor × (Bool × Option (List Byte) × σ) :=
  match f.m_instance with
  | none => (f, (false, buffer, w))
  | some p =>
    if f.m_status ≠ FlycastStatus.hooked then (f, (false, buffer, w))
    else
      let r := p.writeToRAMCall h w offset buffer size withBSwap
      ({ f with m_instance := some r.1 }, r.2)

/-- The method `FlycastAccessor::readEntireRAM` as a transition of the facade: the
statics after the call (as the inner `readFromRAM` left them), together with what
the call returns; `true` stands for `MemOperationReturnCode::OK`. -/
def FlycastAccessor.readEntireRAMCall {σ : Type} (h : Host σ) (f : FlycastAccessor) (w : σ)
    (buffer : Option (List Byte)) : FlycastAccessor × (Bool × Option (List Byte) × σ) :=
  match f.m_instance with
  | none => (f, (false, buffer, w))
  | some _ =>
    if f.m_status ≠ FlycastStatus.hooked then (f, (false, buffer, w))
    else
      let r := f.readFromRAMCall h w 0 buffer f.getRAMTotalSize false
      if r.2.1 = false then (r.1, (false, r.2.2.1, r.2.2.2))
      else (r.1, (true, r.2.2.1, r.2.2.2))

/-- A call made on the facade by a consumer; each call sees the outside world as
it is at that moment (the emulator may have been restarted in between). -/
inductive FacadeCall (σ : Type) where
  | hook (w : σ)
  | unHook
  | readFromRAM (w : σ) (offset : Nat) (buffer : Option (List Byte)) (size : Nat)
      (withBSwap : Bool)
  | writeToRAM (w : σ) (offset : Nat) (buffer : Option (List Byte)) (size : Nat)
      (withBSwap : Bool)
  | readEntireRAM (w : σ) (buffer : Option (List Byte))

/-- The statics of the facade (and the members of the probe they point to) after a
call: the state each method leaves behind. -/
def FlycastAccessor.step {σ : Type} (h : Host σ) (f : FlycastAccessor) :
    FacadeCall σ → FlycastAccessor
  | FacadeCall.hook w => (f.hook h w).1
  | FacadeCall.unHook => f.unHook
  | FacadeCall.readFromRAM w offset buffer size withBSwap =>
    (f.readFromRAMCall h w offset buffer size withBSwap).1
  | FacadeCall.writeToRAM w offset buffer size withBSwap =>
    (f.writeToRAMCall h w offset buffer size withBSwap).1
  | FacadeCall.readEntireRAM w buffer => (f.readEntireRAMCall h w buffer).1

/-- The facade after a sequence of calls. -/
def FlycastAccessor.run {σ : Type} (h : Host σ) (f : FlycastAccessor)
    (calls : List (FacadeCall σ)) : FlycastAccessor :=
  calls.foldl (FlycastAccessor.step h) f

/-- The worlds seen by the `hook` calls of a sequence. -/
def hookWorlds {σ : Type} : List (FacadeCall σ) → List σ
  | [] => []
  | FacadeCall.hook w :: rest => w :: hookWorlds rest
  | _ :: rest => hookWorlds rest

/-- No region of any process of the world is based at host address 0. -/
def NoRegionAtZero {σ : Type} (h : Host σ) (w : σ) : Prop :=
  ∀ pid, ∀ r ∈ regionsOf h w pid, r.base ≠ 0

/-- A world whose arena wraps around the end of the 64-bit address space: the
target has a region based at address 0 and one at `0xFFFF_FFFF_F800_0000`, and its
byte array is mapped at address 0. -/
def wrapWorld : Stub :=
  { procs := [(4242, "flycast")]
    pid := 4242
    maps := [⟨0, 0x1000000, ['r', 'w', '-', 'p']⟩,
             ⟨0xFFFFFFFFF8000000, 0xFFFFFFFFF8800000, ['r', 'w', '-', 'p']⟩]
    ramBase := 0
    ramSize := 16777216
    ram := fun _ => 0
    shortBy := 0
    calls := [] }

/-! ## Process discovery on the other platforms -/

/-- The name test of `MacFlycastProcess::findPID`. -/
def macNameMatches (envOverride : Option String) (name : String) : Bool :=
  match envOverride with
  | some o => decide (name = o)
  | none => decide (name = "Flycast") || decide (name = "flycast")
      || decide (name = "flycast-qt") || decide (name = "flycast-qt6")

/-- The body of the loop of `MacFlycastProcess::findPID` on `m_PID`: a matching
entry overwrites it, and the loop goes on. -/
def macScanStep (envOverride : Option String) (pid : Int) (e : Int × String) : Int :=
  if macNameMatches envOverride e.2 then e.1 else pid

/-- The method `MacFlycastProcess::findPID`; `procEntries` stands for the
`kinfo_proc` array returned by `sysctl` as `(p_pid, p_comm)` in array order (`none`
when `sysctl` fails) and `envOverride` for `getenv("DME_FLYCAST_PROCESS_NAME")`. -/
def macFindPID {σ : Type} (h : Host σ) (w : σ) (p : Probe) : Bool × Probe :=
  match h.procEntries w with
  | none => (false, p)
  | some es =>
    let pid := es.foldl (macScanStep (h.envOverride w)) (-1)
    (decide (pid ≠ -1), { p with m_PID := pid })

/-- The PID of the first entry, in enumeration order, whose name satisfies
`accepts`. -/
def firstMatch (accepts : String → Bool) : List (Int × String) → Option Int
  | [] => none
  | e :: rest => if accepts e.2 then some e.1 else firstMatch accepts rest

/-- The world of the override scenario on Linux and macOS: the command line set
`FME_FLYCAST_PROCESS_NAME=custom-emu` (as `main` does for `-d custom-emu`), and
both a `flycast` and a `custom-emu` process run. -/
def overrideWorld : Stub :=
  { happyWorld with
    procs := [(100, "flycast"), (200, "custom-emu")]
    environ := [("FME_FLYCAST_PROCESS_NAME", "custom-emu")] }

/-- A world with two processes carrying a macOS default name. -/
def twoMatchWorld : Stub :=
  { happyWorld with procs := [(1, "launchd"), (100, "Flycast"), (200, "flycast")] }

/-! ## The region filter of the Windows probe -/

/-- The fields `State`, `Protect` and `Type` of `MEMORY_BASIC_INFORMATION`, which
the filter reads (`DWORD` values; `Typ` stands for `Type`). -/
structure MemoryBasicInformation where
  State : Nat
  Protect : Nat
  Typ : Nat
deriving DecidableEq, Repr

/-- The Windows SDK constant `MEM_COMMIT`. -/
def MEM_COMMIT : Nat := 0x1000

/-- The Windows SDK constant `MEM_PRIVATE`. -/
def MEM_PRIVATE : Nat := 0x20000

/-- The Windows SDK constant `MEM_MAPPED`. -/
def MEM_MAPPED : Nat := 0x40000

/-- The Windows SDK constant `PAGE_NOACCESS`. -/
def PAGE_NOACCESS : Nat := 0x01

/-- The Windows SDK constant `PAGE_READONLY`. -/
def PAGE_READONLY : Nat := 0x02

/-- The Windows SDK constant `PAGE_READWRITE`. -/
def PAGE_READWRITE : Nat := 0x04

/-- The Windows SDK constant `PAGE_WRITECOPY`. -/
def PAGE_WRITECOPY : Nat := 0x08

/-- The Windows SDK constant `PAGE_EXECUTE`. -/
def PAGE_EXECUTE : Nat := 0x10

/-- The Windows SDK constant `PAGE_EXECUTE_READWRITE`. -/
def PAGE_EXECUTE_READWRITE : Nat := 0x40

/-- The Windows SDK constant `PAGE_EXECUTE_WRITECOPY`. -/
def PAGE_EXECUTE_WRITECOPY : Nat := 0x80

/-- The Windows SDK constant `PAGE_GUARD`. -/
def PAGE_GUARD : Nat := 0x100

/-- The method `WindowsFlycastProcess::isReadableCommittedRegion`. -/
def isReadableCommittedRegion (mbi : MemoryBasicInformation) : Bool :=
  if mbi.State ≠ MEM_COMMIT then false
  else if mbi.Protect = PAGE_NOACCESS ∨ (mbi.Protect &&& PAGE_GUARD) ≠ 0 then false
  else decide (mbi.Typ = MEM_PRIVATE ∨ mbi.Typ = MEM_MAPPED)

/-- A protection value grants both read and write access: its access part (the low
byte, the flags `PAGE_GUARD`, `PAGE_NOCACHE` and `PAGE_WRITECOMBINE` set aside) is one
of the four read-write protections. -/
def grantsReadWrite (protect : Nat) : Bool :=
  decide (protect % 256 = PAGE_READWRITE ∨ protect % 256 = PAGE_WRITECOPY ∨
    protect % 256 = PAGE_EXECUTE_READWRITE ∨ protect % 256 = PAGE_EXECUTE_WRITECOPY)

/-- What a consumer can observe of the attachment: `status()`, `pid()`,
`ramStart()`, `aramStart()` and `aramAccessible()`. -/
def FlycastAccessor.observe (f : FlycastAccessor) :
    FlycastStatus × Int × Nat × Nat × Bool :=
  (f.getStatus, f.getPID, f.getRAMAddressStart, f.getARAMAddressStart, f.isARAMAccessible)

/-! ## Properties of the candidate map -/

theorem addressInRegionList_iff (addr : Nat) (regs : List Region) :
    addressInRegionList addr regs = true ↔
      ∃ r ∈ regs, r.base ≤ addr ∧ addr < add64 r.base r.size := by
  induction regs with
  | nil => simp [addressInRegionList]
  | cons r rest ih =>
    unfold addressInRegionList
    by_cases hr : addr ≥ r.base ∧ addr < add64 r.base r.size
    · simp only [hr, and_self, if_true, true_iff]
      exact ⟨r, List.mem_cons_self _ _, hr.1, hr.2⟩
    · rw [if_neg hr, ih]
      constructor
      · rintro ⟨x, hx, hx2⟩
        exact ⟨x, List.mem_cons_of_mem _ hx, hx2⟩
      · rintro ⟨x, hx, hx2⟩
        rcases List.mem_cons.mp hx with rfl | hx
        · exact absurd hx2 hr
        · exact ⟨x, hx, hx2⟩

theorem candFind_candUpdate (f : Acc → Acc) (k k' : Nat) (c : List (Nat × Acc)) :
    candFind k (candUpdate f k' c) =
      if k' = k then some (f ((candFind k c).getD ⟨0, 0, 0⟩)) else candFind k c := by
  induction c with
  | nil =>
    by_cases hk : k' = k <;> simp [candUpdate, candFind, hk]
  | cons e rest ih =>
    unfold candUpdate
    by_cases he : e.1 = k'
    · rw [if_pos he]
      by_cases hk : k' = k
      · simp [candFind, he, hk]
      · have hek : ¬ e.1 = k := by rw [he]; exact hk
        simp [candFind, he, hk]
    · rw [if_neg he]
      unfold candFind
      by_cases hek : e.1 = k
      · have hk : ¬ k' = k := by rw [← hek]; exact fun h => he h.symm
        rw [if_pos hek, if_pos hek, if_neg hk]
      · rw [if_neg hek, if_neg hek, ih]

theorem candUpdate_keys (f : Acc → Acc) (k : Nat) (c : List (Nat × Acc)) :
    (candUpdate f k c).map Prod.fst =
      if k ∈ c.map Prod.fst then c.map Prod.fst else c.map Prod.fst ++ [k] := by
  induction c with
  | nil => simp [candUpdate]
  | cons e rest ih =>
    unfold candUpdate
    by_cases he : e.1 = k
    · simp [he]
    · have hne : ¬ k = e.1 := fun h => he h.symm
      by_cases hm : k ∈ rest.map Prod.fst
      · rw [if_neg he, List.map_cons, ih, if_pos hm]
        simp only [List.map_cons, List.mem_cons, hm, or_true, if_true]
      · rw [if_neg he, List.map_cons, ih, if_neg hm]
        simp only [List.map_cons, List.mem_cons, hne, hm, or_self, if_false, List.cons_append]

theorem candUpdate_nodup (f : Acc → Acc) (k : Nat) (c : List (Nat × Acc))
    (h : (c.map Prod.fst).Nodup) : ((candUpdate f k c).map Prod.fst).Nodup := by
  rw [candUpdate_keys]
  by_cases hm : k ∈ c.map Prod.fst
  · rw [if_pos hm]; exact h
  · rw [if_neg hm]
    refine List.Nodup.append h (List.nodup_singleton k) ?_
    intro x hx hx2
    rw [List.mem_singleton] at hx2
    subst hx2
    exact hm hx

theorem voteRegion_nodup (c : List (Nat × Acc)) (r : Region)
    (h : (c.map Prod.fst).Nodup) : ((voteRegion c r).map Prod.fst).Nodup := by
  unfold voteRegion
  exact candUpdate_nodup _ _ _ (candUpdate_nodup _ _ _ (candUpdate_nodup _ _ _ h))

theorem foldl_voteRegion_nodup (regs : List Region) :
    ∀ c : List (Nat × Acc), (c.map Prod.fst).Nodup →
      ((regs.foldl voteRegion c).map Prod.fst).Nodup := by
  induction regs with
  | nil => intro c h; exact h
  | cons r rest ih =>
    intro c h
    exact ih _ (voteRegion_nodup c r h)

theorem buildCand_nodup (regs : List Region) : ((buildCand regs).map Prod.fst).Nodup :=
  foldl_voteRegion_nodup regs [] List.nodup_nil

theorem mem_iff_candFind (c : List (Nat × Acc)) (h : (c.map Prod.fst).Nodup)
    (k : Nat) (acc : Acc) : (k, acc) ∈ c ↔ candFind k c = some acc := by
  induction c with
  | nil => simp [candFind]
  | cons e rest ih =>
    rw [List.map_cons, List.nodup_cons] at h
    unfold candFind
    by_cases he : e.1 = k
    · rw [if_pos he, List.mem_cons]
      constructor
      · rintro (h1 | h1)
        · rw [← h1]
        · exfalso
          apply h.1
          rw [he]
          exact List.mem_map_of_mem Prod.fst h1
      · intro h1
        left
        have h2 : e.2 = acc := Option.some.inj h1
        rw [← he, ← h2]
    · rw [if_neg he, List.mem_cons, ← ih h.2]
      constructor
      · rintro (h1 | h1)
        · exfalso; apply he; rw [← h1]
        · exact h1
      · intro h1; exact Or.inr h1

theorem candFind_voteRegion (k : Nat) (c : List (Nat × Acc)) (r : Region) :
    candFind k (voteRegion c r) =
      if tally k [r] = ⟨0, 0, 0⟩ then candFind k c
      else some (accAdd ((candFind k c).getD ⟨0, 0, 0⟩) (tally k [r])) := by
  unfold voteRegion
  simp only [candFind_candUpdate, tally, accAdd]
  by_cases hv : sub64 r.base OFF_VRAM = k <;> by_cases hm : sub64 r.base OFF_MAIN = k <;>
    by_cases ha : sub64 r.base OFF_AICA = k <;> simp [hv, hm, ha]

theorem tally_cons (k : Nat) (r : Region) (rest : List Region) :
    tally k (r :: rest) = accAdd (tally k [r]) (tally k rest) := by
  simp [tally, accAdd, Nat.add_comm]

theorem accAdd_eq_zero (x y : Acc) :
    accAdd x y = ⟨0, 0, 0⟩ ↔ x = ⟨0, 0, 0⟩ ∧ y = ⟨0, 0, 0⟩ := by
  cases x; cases y
  simp only [accAdd, Acc.mk.injEq]
  omega

theorem accAdd_assoc (x y z : Acc) : accAdd (accAdd x y) z = accAdd x (accAdd y z) := by
  simp [accAdd, Nat.add_assoc]

theorem accAdd_zero_left (x : Acc) : accAdd ⟨0, 0, 0⟩ x = x := by
  simp [accAdd]

theorem candFind_foldl_voteRegion (k : Nat) (regs : List Region) :
    ∀ c : List (Nat × Acc),
      candFind k (regs.foldl voteRegion c) =
        if tally k regs = ⟨0, 0, 0⟩ then candFind k c
        else some (accAdd ((candFind k c).getD ⟨0, 0, 0⟩) (tally k regs)) := by
  induction regs with
  | nil => intro c; simp [tally]
  | cons r rest ih =>
    intro c
    rw [List.foldl_cons, ih, candFind_voteRegion, tally_cons k r rest]
    by_cases h1 : tally k [r] = ⟨0, 0, 0⟩
    · by_cases h2 : tally k rest = ⟨0, 0, 0⟩
      · simp [h1, h2, accAdd_zero_left]
      · simp [h1, h2, accAdd_zero_left]
    · by_cases h2 : tally k rest = ⟨0, 0, 0⟩
      · have h3 : ¬ accAdd (tally k [r]) (tally k rest) = ⟨0, 0, 0⟩ := by
          rw [accAdd_eq_zero]; exact fun h => h1 h.1
        rw [if_pos h2, if_neg h1, if_neg h3, h2]
        simp [accAdd]
      · have h3 : ¬ accAdd (tally k [r]) (tally k rest) = ⟨0, 0, 0⟩ := by
          rw [accAdd_eq_zero]; exact fun h => h1 h.1
        rw [if_neg h2, if_neg h1, if_neg h3, Option.getD_some, accAdd_assoc]

theorem candFind_buildCand (k : Nat) (regs : List Region) :
    candFind k (buildCand regs) =
      if tally k regs = ⟨0, 0, 0⟩ then none else some (tally k regs) := by
  unfold buildCand
  rw [candFind_foldl_voteRegion]
  simp [candFind, accAdd_zero_left]

theorem mem_buildCand_iff (regs : List Region) (k : Nat) (acc : Acc) :
    (k, acc) ∈ buildCand regs ↔ (tally k regs ≠ ⟨0, 0, 0⟩ ∧ acc = tally k regs) := by
  rw [mem_iff_candFind _ (buildCand_nodup regs), candFind_buildCand]
  by_cases h : tally k regs = ⟨0, 0, 0⟩
  · simp [h]
  · simp [h, eq_comm]

theorem tally_v_pos (k : Nat) (regs : List Region) :
    0 < (tally k regs).v ↔ ∃ r ∈ regs, sub64 r.base OFF_VRAM = k := by
  induction regs with
  | nil => simp [tally]
  | cons r rest ih =>
    simp only [tally, List.mem_cons, exists_eq_or_imp]
    rw [← ih]
    by_cases h : sub64 r.base OFF_VRAM = k <;> simp [h]

theorem tally_m_pos (k : Nat) (regs : List Region) :
    0 < (tally k regs).m ↔ ∃ r ∈ regs, sub64 r.base OFF_MAIN = k := by
  induction regs with
  | nil => simp [tally]
  | cons r rest ih =>
    simp only [tally, List.mem_cons, exists_eq_or_imp]
    rw [← ih]
    by_cases h : sub64 r.base OFF_MAIN = k <;> simp [h]

theorem tally_a_pos (k : Nat) (regs : List Region) :
    0 < (tally k regs).a ↔ ∃ r ∈ regs, sub64 r.base OFF_AICA = k := by
  induction regs with
  | nil => simp [tally]
  | cons r rest ih =>
    simp only [tally, List.mem_cons, exists_eq_or_imp]
    rw [← ih]
    by_cases h : sub64 r.base OFF_AICA = k <;> simp [h]

theorem candScore_eq (regs : List Region) (k : Nat) :
    candScore regs k = scoreOf (tally k regs) := by
  unfold candScore
  rw [candFind_buildCand]
  by_cases h : tally k regs = ⟨0, 0, 0⟩
  · rw [if_pos h, h]; rfl
  · rw [if_neg h]

/-! ## Properties of the selection loop -/

theorem selectStep_cases (regs : List Region) (st : Nat × Int) (kv : Nat × Acc) :
    (selectStep regs st kv = st ∧ (gateOk regs kv.1 = true → scoreOf kv.2 ≤ st.2)) ∨
    (selectStep regs st kv = (kv.1, scoreOf kv.2) ∧ gateOk regs kv.1 = true ∧
      st.2 < scoreOf kv.2) := by
  unfold selectStep gateOk
  by_cases h0 : kv.1 = 0
  · left; simp [h0]
  · by_cases hm : addressInRegionList (add64 kv.1 OFF_MAIN) regs = false
    · left; simp [h0, hm]
    · by_cases hv : addressInRegionList (add64 kv.1 OFF_VRAM) regs = false
      · left; simp [h0, hm, hv]
      · by_cases hs : scoreOf kv.2 > st.2
        · right
          rw [if_neg h0, if_neg hm, if_neg hv, if_pos hs]
          simp only [Bool.not_eq_false] at hm hv
          simp [h0, hm, hv]
          exact hs
        · left
          rw [if_neg h0, if_neg hm, if_neg hv, if_neg hs]
          exact ⟨rfl, fun _ => not_lt.mp hs⟩

theorem foldl_selectStep_spec (regs : List Region) (iter : List (Nat × Acc)) :
    ∀ st : Nat × Int,
      (iter.foldl (selectStep regs) st = st ∨
        ∃ kv ∈ iter, gateOk regs kv.1 = true ∧
          iter.foldl (selectStep regs) st = (kv.1, scoreOf kv.2)) ∧
      st.2 ≤ (iter.foldl (selectStep regs) st).2 ∧
      ∀ kv ∈ iter, gateOk regs kv.1 = true →
        scoreOf kv.2 ≤ (iter.foldl (selectStep regs) st).2 := by
  induction iter with
  | nil => intro st; simp
  | cons e rest ih =>
    intro st
    rw [List.foldl_cons]
    obtain ⟨h1, h2, h3⟩ := ih (selectStep regs st e)
    rcases selectStep_cases regs st e with ⟨hs, hle⟩ | ⟨hs, hg, hlt⟩
    · rw [hs] at h1 h2 h3 ⊢
      refine ⟨?_, h2, ?_⟩
      · rcases h1 with h1 | ⟨kv, hkv, hg, hr⟩
        · exact Or.inl h1
        · exact Or.inr ⟨kv, List.mem_cons_of_mem _ hkv, hg, hr⟩
      · intro kv hkv hg
        rcases List.mem_cons.mp hkv with rfl | hkv
        · exact le_trans (hle hg) h2
        · exact h3 kv hkv hg
    · rw [hs] at h1 h2 h3 ⊢
      refine ⟨Or.inr ?_, ?_, ?_⟩
      · rcases h1 with h1 | ⟨kv, hkv, hg2, hr⟩
        · exact ⟨e, List.mem_cons_self _ _, hg, h1⟩
        · exact ⟨kv, List.mem_cons_of_mem _ hkv, hg2, hr⟩
      · exact le_trans (le_of_lt hlt) h2
      · intro kv hkv hg2
        rcases List.mem_cons.mp hkv with rfl | hkv
        · exact h2
        · exact h3 kv hkv hg2

theorem triangulateIter_some (regs : List Region) (iter : List (Nat × Acc)) (B : Nat)
    (h : triangulateIter regs iter = some B) :
    ∃ acc, (B, acc) ∈ iter ∧ gateOk regs B = true ∧ 2 ≤ scoreOf acc ∧
      ∀ kv ∈ iter, gateOk regs kv.1 = true → scoreOf kv.2 ≤ scoreOf acc := by
  unfold triangulateIter at h
  obtain ⟨h1, _, h3⟩ := foldl_selectStep_spec regs iter (0, -1)
  by_cases hs : (selectBest regs iter).2 ≥ 2
  · rw [if_pos hs] at h
    have hB : (selectBest regs iter).1 = B := Option.some.inj h
    unfold selectBest at hs hB
    rcases h1 with h1 | ⟨kv, hkv, hg, hr⟩
    · rw [h1] at hs
      exact absurd hs (by decide)
    · rw [hr] at hs hB h3
      simp only at hs hB h3
      subst hB
      exact ⟨kv.2, hkv, hg, hs, h3⟩
  · rw [if_neg hs] at h
    exact absurd h (by simp)

theorem triangulateIter_none (regs : List Region) (iter : List (Nat × Acc))
    (h : triangulateIter regs iter = none) :
    ∀ kv ∈ iter, gateOk regs kv.1 = true → scoreOf kv.2 < 2 := by
  unfold triangulateIter at h
  obtain ⟨_, _, h3⟩ := foldl_selectStep_spec regs iter (0, -1)
  by_cases hs : (selectBest regs iter).2 ≥ 2
  · rw [if_pos hs] at h
    exact absurd h (by simp)
  · intro kv hkv hg
    have := h3 kv hkv hg
    unfold selectBest at hs
    omega

theorem scoreOf_ge_two (acc : Acc) (h : 2 ≤ scoreOf acc) :
    (0 < acc.v ∧ 0 < acc.m) ∨ (0 < acc.v ∧ 0 < acc.a) ∨ (0 < acc.m ∧ 0 < acc.a) := by
  unfold scoreOf at h
  by_cases hv : acc.v > 0 <;> by_cases hm : acc.m > 0 <;> by_cases ha : acc.a > 0 <;>
    simp [hv, hm, ha] at h ⊢

theorem scoreOf_eq_three (acc : Acc) (hv : 0 < acc.v) (hm : 0 < acc.m) (ha : 0 < acc.a) :
    scoreOf acc = 3 := by
  unfold scoreOf
  simp [hv, hm, ha]

theorem scoreOf_vm (acc : Acc) (hv : 0 < acc.v) (hm : 0 < acc.m) : 2 ≤ scoreOf acc := by
  unfold scoreOf
  by_cases ha : acc.a > 0 <;> simp [hv, hm, ha]

theorem scoreOf_eq_two (acc : Acc) (hv : 0 < acc.v) (hm : 0 < acc.m) (ha : acc.a = 0) :
    scoreOf acc = 2 := by
  unfold scoreOf
  simp [hv, hm, ha]

theorem two_votes (regs : List Region) (k : Nat) (h : 2 ≤ scoreOf (tally k regs)) :
    (∃ r1 ∈ regs, ∃ r2 ∈ regs, sub64 r1.base OFF_VRAM = k ∧ sub64 r2.base OFF_MAIN = k) ∨
    (∃ r1 ∈ regs, ∃ r2 ∈ regs, sub64 r1.base OFF_VRAM = k ∧ sub64 r2.base OFF_AICA = k) ∨
    (∃ r1 ∈ regs, ∃ r2 ∈ regs, sub64 r1.base OFF_MAIN = k ∧ sub64 r2.base OFF_AICA = k) := by
  rcases scoreOf_ge_two _ h with ⟨h1, h2⟩ | ⟨h1, h2⟩ | ⟨h1, h2⟩
  · obtain ⟨r1, hr1, e1⟩ := (tally_v_pos k regs).mp h1
    obtain ⟨r2, hr2, e2⟩ := (tally_m_pos k regs).mp h2
    exact Or.inl ⟨r1, hr1, r2, hr2, e1, e2⟩
  · obtain ⟨r1, hr1, e1⟩ := (tally_v_pos k regs).mp h1
    obtain ⟨r2, hr2, e2⟩ := (tally_a_pos k regs).mp h2
    exact Or.inr (Or.inl ⟨r1, hr1, r2, hr2, e1, e2⟩)
  · obtain ⟨r1, hr1, e1⟩ := (tally_m_pos k regs).mp h1
    obtain ⟨r2, hr2, e2⟩ := (tally_a_pos k regs).mp h2
    exact Or.inr (Or.inr ⟨r1, hr1, r2, hr2, e1, e2⟩)

theorem tally_ne_zero_of_score (regs : List Region) (k : Nat)
    (h : 1 ≤ scoreOf (tally k regs)) : tally k regs ≠ ⟨0, 0, 0⟩ := by
  intro h0
  rw [h0] at h
  exact absurd h (by decide)

/-- Whatever the iteration order, an accepted base passes the gate, has at least
two votes, and no gated candidate has a higher score. -/
theorem triangulate_found (regs : List Region) (iter : List (Nat × Acc)) (B : Nat)
    (hp : iter.Perm (buildCand regs)) (h : triangulateIter regs iter = some B) :
    gateOk regs B = true ∧ 2 ≤ scoreOf (tally B regs) ∧
      ∀ k, gateOk regs k = true → scoreOf (tally k regs) ≤ scoreOf (tally B regs) := by
  obtain ⟨acc, hmem, hg, hs, hmax⟩ := triangulateIter_some regs iter B h
  have hacc := ((mem_buildCand_iff regs B acc).mp (hp.mem_iff.mp hmem)).2
  subst hacc
  refine ⟨hg, hs, ?_⟩
  intro k hk
  by_cases h0 : tally k regs = ⟨0, 0, 0⟩
  · rw [h0]
    exact le_trans (by decide) hs
  · have hk2 : (k, tally k regs) ∈ iter :=
      hp.mem_iff.mpr ((mem_buildCand_iff regs k _).mpr ⟨h0, rfl⟩)
    exact hmax _ hk2 hk

/-- Whatever the iteration order, a rejection means that no gated candidate has
two votes. -/
theorem triangulate_rejects (regs : List Region) (iter : List (Nat × Acc))
    (hp : iter.Perm (buildCand regs)) (h : triangulateIter regs iter = none) :
    ∀ k, gateOk regs k = true → scoreOf (tally k regs) < 2 := by
  intro k hk
  by_cases h0 : tally k regs = ⟨0, 0, 0⟩
  · rw [h0]; decide
  · have hk2 : (k, tally k regs) ∈ iter :=
      hp.mem_iff.mpr ((mem_buildCand_iff regs k _).mpr ⟨h0, rfl⟩)
    exact triangulateIter_none regs iter h _ hk2 hk

/-- When a single candidate has two votes or more and it passes the gate, it is
the result in every iteration order. -/
theorem triangulate_of_unique (regs : List Region) (iter : List (Nat × Acc)) (B : Nat)
    (hp : iter.Perm (buildCand regs)) (hg : gateOk regs B = true)
    (hs : 2 ≤ scoreOf (tally B regs))
    (hu : ∀ k, 2 ≤ scoreOf (tally k regs) → k = B) :
    triangulateIter regs iter = some B := by
  cases hres : triangulateIter regs iter with
  | none =>
    have := triangulate_rejects regs iter hp hres B hg
    omega
  | some B2 =>
    obtain ⟨_, hs2, _⟩ := triangulate_found regs iter B2 hp hres
    rw [hu B2 hs2]

/-- When no candidate has two votes, the list is rejected in every iteration
order. -/
theorem triangulate_none_of_scores (regs : List Region) (iter : List (Nat × Acc))
    (hp : iter.Perm (buildCand regs))
    (hu : ∀ k, gateOk regs k = true → scoreOf (tally k regs) < 2) :
    triangulateIter regs iter = none := by
  cases hres : triangulateIter regs iter with
  | none => rfl
  | some B2 =>
    obtain ⟨hg, hs2, _⟩ := triangulate_found regs iter B2 hp hres
    have := hu B2 hg
    omega

theorem gateOk_iff (regs : List Region) (k : Nat) :
    gateOk regs k = true ↔
      k ≠ 0 ∧ addressInRegionList (add64 k OFF_MAIN) regs = true ∧
        addressInRegionList (add64 k OFF_VRAM) regs = true := by
  unfold gateOk
  simp [Bool.and_eq_true, and_assoc]

/-! ## Triangulator properties -/

theorem three_regions_unique (B s1 s2 s3 k : Nat) (hB : B < 18446744073709551616)
    (h : 2 ≤ scoreOf (tally k
      [⟨add64 B OFF_VRAM, s1⟩, ⟨add64 B OFF_MAIN, s2⟩, ⟨add64 B OFF_AICA, s3⟩])) :
    k = B := by
  rcases two_votes _ k h with ⟨r1, hr1, r2, hr2, e1, e2⟩ | ⟨r1, hr1, r2, hr2, e1, e2⟩ |
      ⟨r1, hr1, r2, hr2, e1, e2⟩ <;>
    simp only [List.mem_cons, List.mem_singleton, List.not_mem_nil, or_false] at hr1 hr2 <;>
    rcases hr1 with rfl | rfl | rfl <;> rcases hr2 with rfl | rfl | rfl <;>
    simp only [sub64, add64, OFF_VRAM, OFF_MAIN, OFF_AICA] at e1 e2 <;> omega

theorem three_regions_accept (B s1 s2 s3 : Nat) (iter : List (Nat × Acc))
    (hB0 : B ≠ 0) (hB : B < 18446744073709551616)
    (h1 : 0 < s1) (h1w : add64 B OFF_VRAM + s1 < 18446744073709551616)
    (h2 : 0 < s2) (h2w : add64 B OFF_MAIN + s2 < 18446744073709551616)
    (hp : iter.Perm (buildCand
      [⟨add64 B OFF_VRAM, s1⟩, ⟨add64 B OFF_MAIN, s2⟩, ⟨add64 B OFF_AICA, s3⟩])) :
    triangulateIter
        [⟨add64 B OFF_VRAM, s1⟩, ⟨add64 B OFF_MAIN, s2⟩, ⟨add64 B OFF_AICA, s3⟩] iter = some B ∧
      locateFlycastArenaBase
        [⟨add64 B OFF_VRAM, s1⟩, ⟨add64 B OFF_MAIN, s2⟩, ⟨add64 B OFF_AICA, s3⟩] iter = some B ∧
      candScore
        [⟨add64 B OFF_VRAM, s1⟩, ⟨add64 B OFF_MAIN, s2⟩, ⟨add64 B OFF_AICA, s3⟩] B = 3 := by
  have hv : 0 < (tally B
      [⟨add64 B OFF_VRAM, s1⟩, ⟨add64 B OFF_MAIN, s2⟩, ⟨add64 B OFF_AICA, s3⟩]).v := by
    rw [tally_v_pos]
    refine ⟨⟨add64 B OFF_VRAM, s1⟩, by simp, ?_⟩
    simp only [sub64, add64, OFF_VRAM]; omega
  have hm : 0 < (tally B
      [⟨add64 B OFF_VRAM, s1⟩, ⟨add64 B OFF_MAIN, s2⟩, ⟨add64 B OFF_AICA, s3⟩]).m := by
    rw [tally_m_pos]
    refine ⟨⟨add64 B OFF_MAIN, s2⟩, by simp, ?_⟩
    simp only [sub64, add64, OFF_MAIN]; omega
  have ha : 0 < (tally B
      [⟨add64 B OFF_VRAM, s1⟩, ⟨add64 B OFF_MAIN, s2⟩, ⟨add64 B OFF_AICA, s3⟩]).a := by
    rw [tally_a_pos]
    refine ⟨⟨add64 B OFF_AICA, s3⟩, by simp, ?_⟩
    simp only [sub64, add64, OFF_AICA]; omega
  have hscore := scoreOf_eq_three _ hv hm ha
  have hg : gateOk
      [⟨add64 B OFF_VRAM, s1⟩, ⟨add64 B OFF_MAIN, s2⟩, ⟨add64 B OFF_AICA, s3⟩] B = true := by
    rw [gateOk_iff]
    refine ⟨hB0, ?_, ?_⟩
    · rw [addressInRegionList_iff]
      refine ⟨⟨add64 B OFF_MAIN, s2⟩, by simp, le_refl _, ?_⟩
      show add64 B OFF_MAIN < add64 (add64 B OFF_MAIN) s2
      simp only [add64] at h2w ⊢; omega
    · rw [addressInRegionList_iff]
      refine ⟨⟨add64 B OFF_VRAM, s1⟩, by simp, le_refl _, ?_⟩
      show add64 B OFF_VRAM < add64 (add64 B OFF_VRAM) s1
      simp only [add64] at h1w ⊢; omega
  have hres := triangulate_of_unique _ iter B hp hg (by rw [hscore]; decide)
    (fun k hk => three_regions_unique B s1 s2 s3 k hB hk)
  refine ⟨hres, ?_, ?_⟩
  · unfold locateFlycastArenaBase
    simpa using hres
  · rw [candScore_eq, hscore]

theorem keepLine_span (l : MapsLine) (r : Region) (h : keepLine l = some r)
    (hs : l.stop < 18446744073709551616) :
    r.base = l.start ∧ 0 < r.size ∧ r.base + r.size < 18446744073709551616 := by
  unfold keepLine at h
  by_cases hc : l.stop > l.start ∧ permsRW l.perms = true
  · rw [if_pos hc] at h
    have hr : r = ⟨l.start, l.stop - l.start⟩ := (Option.some.inj h).symm
    subst hr
    refine ⟨rfl, ?_, ?_⟩
    · show 0 < l.stop - l.start
      omega
    · show l.start + (l.stop - l.start) < 18446744073709551616
      omega
  · rw [if_neg hc] at h
    exact absurd h (by simp)

/-- C5: for every arena base `B ≠ 0` and all region sizes, the triangulator applied
to exactly the three regions at `B + 0x04000000`, `B + 0x0C000000` and
`B + 0x20000000` returns `B` in every iteration order of the candidate map, and the
score of `B` is 3. The sizes range over those of regions as the probes retain them:
a region is a non-empty span whose end is a 64-bit address (`s ≥ 1`,
`base + s < 2^64`; nothing is asked of `s3`). The last part states the same for any
three lines of the maps file that `readProcMaps` retains, whatever their ends. -/
theorem triangulate_three_regions (B s1 s2 s3 : Nat) (iter : List (Nat × Acc))
    (hB0 : B ≠ 0) (hB : B < 18446744073709551616)
    (h1 : 0 < s1) (h1w : add64 B OFF_VRAM + s1 < 18446744073709551616)
    (h2 : 0 < s2) (h2w : add64 B OFF_MAIN + s2 < 18446744073709551616)
    (hp : iter.Perm (buildCand
      [⟨add64 B OFF_VRAM, s1⟩, ⟨add64 B OFF_MAIN, s2⟩, ⟨add64 B OFF_AICA, s3⟩])) :
    (triangulateIter
        [⟨add64 B OFF_VRAM, s1⟩, ⟨add64 B OFF_MAIN, s2⟩, ⟨add64 B OFF_AICA, s3⟩] iter = some B ∧
      locateFlycastArenaBase
        [⟨add64 B OFF_VRAM, s1⟩, ⟨add64 B OFF_MAIN, s2⟩, ⟨add64 B OFF_AICA, s3⟩] iter = some B ∧
      candScore
        [⟨add64 B OFF_VRAM, s1⟩, ⟨add64 B OFF_MAIN, s2⟩, ⟨add64 B OFF_AICA, s3⟩] B = 3) ∧
    (∀ (l1 l2 l3 : MapsLine) (r1 r2 r3 : Region) (iter2 : List (Nat × Acc)),
      keepLine l1 = some r1 → keepLine l2 = some r2 → keepLine l3 = some r3 →
      l1.stop < 18446744073709551616 → l2.stop < 18446744073709551616 →
      l1.start = add64 B OFF_VRAM → l2.start = add64 B OFF_MAIN →
      l3.start = add64 B OFF_AICA →
      iter2.Perm (buildCand [r1, r2, r3]) →
      triangulateIter [r1, r2, r3] iter2 = some B ∧
        locateFlycastArenaBase [r1, r2, r3] iter2 = some B ∧
        candScore [r1, r2, r3] B = 3) := by
  refine ⟨three_regions_accept B s1 s2 s3 iter hB0 hB h1 h1w h2 h2w hp, ?_⟩
  intro l1 l2 l3 r1 r2 r3 iter2 hk1 hk2 hk3 hs1 hs2 hb1 hb2 hb3 hp2
  obtain ⟨e1, p1, w1⟩ := keepLine_span l1 r1 hk1 hs1
  obtain ⟨e2, p2, w2⟩ := keepLine_span l2 r2 hk2 hs2
  have e3 : r3.base = l3.start := by
    unfold keepLine at hk3
    by_cases hc : l3.stop > l3.start ∧ permsRW l3.perms = true
    · rw [if_pos hc] at hk3
      rw [← Option.some.inj hk3]
    · rw [if_neg hc] at hk3
      exact absurd hk3 (by simp)
  have hr1 : r1 = ⟨add64 B OFF_VRAM, r1.size⟩ := by
    cases r1; simp only [Region.mk.injEq, and_true]; simp only at e1; rw [e1, hb1]
  have hr2 : r2 = ⟨add64 B OFF_MAIN, r2.size⟩ := by
    cases r2; simp only [Region.mk.injEq, and_true]; simp only at e2; rw [e2, hb2]
  have hr3 : r3 = ⟨add64 B OFF_AICA, r3.size⟩ := by
    cases r3; simp only [Region.mk.injEq, and_true]; simp only at e3; rw [e3, hb3]
  rw [hr1, hr2, hr3] at hp2 ⊢
  rw [e1, hb1] at w1
  rw [e2, hb2] at w2
  exact three_regions_accept B r1.size r2.size r3.size iter2 hB0 hB p1 w1 p2 w2 hp2

/-- C5, an instance: the arena at `0x1_0000_0000` with regions of 8 MiB, 16 MiB and
2 MiB, given by their sizes and as the last three lines of the happy-path maps
file, the map iterated in insertion order. -/
theorem triangulate_three_regions_witness :
    (triangulateIter
        [⟨add64 0x100000000 OFF_VRAM, 0x800000⟩, ⟨add64 0x100000000 OFF_MAIN, 0x1000000⟩,
         ⟨add64 0x100000000 OFF_AICA, 0x200000⟩]
        (buildCand
          [⟨add64 0x100000000 OFF_VRAM, 0x800000⟩, ⟨add64 0x100000000 OFF_MAIN, 0x1000000⟩,
           ⟨add64 0x100000000 OFF_AICA, 0x200000⟩]) = some 0x100000000 ∧
      locateFlycastArenaBase
        [⟨add64 0x100000000 OFF_VRAM, 0x800000⟩, ⟨add64 0x100000000 OFF_MAIN, 0x1000000⟩,
         ⟨add64 0x100000000 OFF_AICA, 0x200000⟩]
        (buildCand
          [⟨add64 0x100000000 OFF_VRAM, 0x800000⟩, ⟨add64 0x100000000 OFF_MAIN, 0x1000000⟩,
           ⟨add64 0x100000000 OFF_AICA, 0x200000⟩]) = some 0x100000000 ∧
      candScore
        [⟨add64 0x100000000 OFF_VRAM, 0x800000⟩, ⟨add64 0x100000000 OFF_MAIN, 0x1000000⟩,
         ⟨add64 0x100000000 OFF_AICA, 0x200000⟩] 0x100000000 = 3) ∧
    (happyMaps.drop 1).filterMap keepLine =
      [⟨0x104000000, 0x800000⟩, ⟨0x10C000000, 0x1000000⟩, ⟨0x120000000, 0x200000⟩] ∧
    triangulateIter
      [⟨0x104000000, 0x800000⟩, ⟨0x10C000000, 0x1000000⟩, ⟨0x120000000, 0x200000⟩]
      (buildCand
        [⟨0x104000000, 0x800000⟩, ⟨0x10C000000, 0x1000000⟩, ⟨0x120000000, 0x200000⟩]) =
      some 0x100000000 :=
  ⟨(triangulate_three_regions 0x100000000 0x800000 0x1000000 0x200000 _ (by decide)
      (by decide) (by decide) (by decide) (by decide) (by decide) (List.Perm.refl _)).1,
   by decide,
   ((triangulate_three_regions 0x100000000 0x800000 0x1000000 0x200000 _ (by decide)
      (by decide) (by decide) (by decide) (by decide) (by decide) (List.Perm.refl _)).2
      ⟨0x104000000, 0x104800000, ['r', 'w', '-', 'p']⟩
      ⟨0x10C000000, 0x10D000000, ['r', 'w', '-', 'p']⟩
      ⟨0x120000000, 0x120200000, ['r', 'w', '-', 'p']⟩
      ⟨0x104000000, 0x800000⟩ ⟨0x10C000000, 0x1000000⟩ ⟨0x120000000, 0x200000⟩ _
      (by decide) (by decide) (by decide) (by decide) (by decide) (by decide) (by decide)
      (by decide) (List.Perm.refl _)).1⟩

theorem triangulate_eq_ite_of_unique (regs : List Region) (iter : List (Nat × Acc)) (B : Nat)
    (hp : iter.Perm (buildCand regs)) (hs : 2 ≤ scoreOf (tally B regs))
    (hu : ∀ k, 2 ≤ scoreOf (tally k regs) → k = B) :
    triangulateIter regs iter = if gateOk regs B = true then some B else none := by
  by_cases hg : gateOk regs B = true
  · rw [if_pos hg]
    exact triangulate_of_unique regs iter B hp hg hs hu
  · rw [if_neg hg]
    apply triangulate_none_of_scores regs iter hp
    intro k hk
    by_contra hlt
    have hk2 : k = B := hu k (by omega)
    rw [hk2] at hk
    exact hg hk

theorem sub64_add64_iff (B o1 o2 : Nat) (hB : B < 18446744073709551616)
    (h1 : o1 < 18446744073709551616) (h2 : o2 < 18446744073709551616) :
    sub64 (add64 B o1) o2 = B ↔ o1 = o2 := by
  simp only [sub64, add64]
  omega

theorem two_regions_unique (B o1 o2 s1 s2 k : Nat) (hB : B < 18446744073709551616)
    (hpair : (o1 = OFF_VRAM ∧ o2 = OFF_MAIN) ∨ (o1 = OFF_VRAM ∧ o2 = OFF_AICA) ∨
      (o1 = OFF_MAIN ∧ o2 = OFF_AICA))
    (h : 2 ≤ scoreOf (tally k [⟨add64 B o1, s1⟩, ⟨add64 B o2, s2⟩])) :
    k = B := by
  rcases hpair with ⟨rfl, rfl⟩ | ⟨rfl, rfl⟩ | ⟨rfl, rfl⟩ <;>
    rcases two_votes _ k h with ⟨r1, hr1, r2, hr2, e1, e2⟩ | ⟨r1, hr1, r2, hr2, e1, e2⟩ |
      ⟨r1, hr1, r2, hr2, e1, e2⟩ <;>
    simp only [List.mem_cons, List.mem_singleton, List.not_mem_nil, or_false] at hr1 hr2 <;>
    rcases hr1 with rfl | rfl <;> rcases hr2 with rfl | rfl <;>
    simp only [sub64, add64, OFF_VRAM, OFF_MAIN, OFF_AICA] at e1 e2 <;> omega

theorem two_regions_score (B o1 o2 s1 s2 : Nat) (hB : B < 18446744073709551616)
    (hpair : (o1 = OFF_VRAM ∧ o2 = OFF_MAIN) ∨ (o1 = OFF_VRAM ∧ o2 = OFF_AICA) ∨
      (o1 = OFF_MAIN ∧ o2 = OFF_AICA)) :
    scoreOf (tally B [⟨add64 B o1, s1⟩, ⟨add64 B o2, s2⟩]) = 2 := by
  have hV : OFF_VRAM < 18446744073709551616 := by decide
  have hM : OFF_MAIN < 18446744073709551616 := by decide
  have hA : OFF_AICA < 18446744073709551616 := by decide
  have hVM : ¬ OFF_VRAM = OFF_MAIN := by decide
  have hVA : ¬ OFF_VRAM = OFF_AICA := by decide
  have hMA : ¬ OFF_MAIN = OFF_AICA := by decide
  have hMV : ¬ OFF_MAIN = OFF_VRAM := by decide
  have hAV : ¬ OFF_AICA = OFF_VRAM := by decide
  have hAM : ¬ OFF_AICA = OFF_MAIN := by decide
  rcases hpair with ⟨rfl, rfl⟩ | ⟨rfl, rfl⟩ | ⟨rfl, rfl⟩ <;>
    simp [tally, scoreOf, sub64_add64_iff, hB, hV, hM, hA, hVM, hVA, hMA, hMV, hAV, hAM]

theorem missing_aica_unique (k : Nat)
    (h : 2 ≤ scoreOf (tally k
      [⟨0x100000000, 0x100000⟩, ⟨0x104000000, 0x800000⟩, ⟨0x10C000000, 0x1000000⟩])) :
    k = 0x100000000 := by
  rcases two_votes _ k h with ⟨r1, hr1, r2, hr2, e1, e2⟩ | ⟨r1, hr1, r2, hr2, e1, e2⟩ |
      ⟨r1, hr1, r2, hr2, e1, e2⟩ <;>
    simp only [List.mem_cons, List.mem_singleton, List.not_mem_nil, or_false] at hr1 hr2 <;>
    rcases hr1 with rfl | rfl | rfl <;> rcases hr2 with rfl | rfl | rfl <;>
    simp only [sub64, OFF_VRAM, OFF_MAIN, OFF_AICA] at e1 e2 <;> omega

/-- C6 (amended): for every arena base `B ≠ 0` and every pair of the three layout
offsets, on the list of one region per chosen offset the candidate `B` has score 2
and is the only candidate with two votes, so the triangulator returns `B` exactly
when `B` passes the VRAM+MAIN point-in-region gate and rejects otherwise, in every
iteration order. For the VRAM+MAIN pair with sizes `≥ 1` and regions ending below
`2^64` the gate passes and `B` is returned; the Missing-AICA scenario gives
`0x1_0000_0000` with score 2. -/
theorem triangulate_two_regions (B o1 o2 s1 s2 : Nat) (iter : List (Nat × Acc))
    (hB : B < 18446744073709551616)
    (hpair : (o1 = OFF_VRAM ∧ o2 = OFF_MAIN) ∨ (o1 = OFF_VRAM ∧ o2 = OFF_AICA) ∨
      (o1 = OFF_MAIN ∧ o2 = OFF_AICA))
    (hp : iter.Perm (buildCand [⟨add64 B o1, s1⟩, ⟨add64 B o2, s2⟩])) :
    candScore [⟨add64 B o1, s1⟩, ⟨add64 B o2, s2⟩] B = 2 ∧
      triangulateIter [⟨add64 B o1, s1⟩, ⟨add64 B o2, s2⟩] iter =
        (if gateOk [⟨add64 B o1, s1⟩, ⟨add64 B o2, s2⟩] B = true then some B else none) ∧
      (B ≠ 0 → o1 = OFF_VRAM → o2 = OFF_MAIN →
        0 < s1 → add64 B o1 + s1 < 18446744073709551616 →
        0 < s2 → add64 B o2 + s2 < 18446744073709551616 →
        triangulateIter [⟨add64 B o1, s1⟩, ⟨add64 B o2, s2⟩] iter = some B) ∧
      (∀ iter2 : List (Nat × Acc),
        iter2.Perm (buildCand
          [⟨0x100000000, 0x100000⟩, ⟨0x104000000, 0x800000⟩, ⟨0x10C000000, 0x1000000⟩]) →
        triangulateIter
          [⟨0x100000000, 0x100000⟩, ⟨0x104000000, 0x800000⟩, ⟨0x10C000000, 0x1000000⟩]
          iter2 = some 0x100000000 ∧
        candScore
          [⟨0x100000000, 0x100000⟩, ⟨0x104000000, 0x800000⟩, ⟨0x10C000000, 0x1000000⟩]
          0x100000000 = 2) := by
  have hscore := two_regions_score B o1 o2 s1 s2 hB hpair
  have hite := triangulate_eq_ite_of_unique _ iter B hp (by rw [hscore])
    (fun k hk => two_regions_unique B o1 o2 s1 s2 k hB hpair hk)
  refine ⟨by rw [candScore_eq, hscore], hite, ?_, ?_⟩
  · intro hB0 ho1 ho2 h1 h1w h2 h2w
    subst ho1 ho2
    rw [hite, if_pos]
    rw [gateOk_iff]
    refine ⟨hB0, ?_, ?_⟩
    · rw [addressInRegionList_iff]
      refine ⟨⟨add64 B OFF_MAIN, s2⟩, by simp, le_refl _, ?_⟩
      show add64 B OFF_MAIN < add64 (add64 B OFF_MAIN) s2
      simp only [add64] at h2w ⊢; omega
    · rw [addressInRegionList_iff]
      refine ⟨⟨add64 B OFF_VRAM, s1⟩, by simp, le_refl _, ?_⟩
      show add64 B OFF_VRAM < add64 (add64 B OFF_VRAM) s1
      simp only [add64] at h1w ⊢; omega
  · intro iter2 hp2
    have hs2 : candScore
        [⟨0x100000000, 0x100000⟩, ⟨0x104000000, 0x800000⟩, ⟨0x10C000000, 0x1000000⟩]
        0x100000000 = 2 := by decide
    refine ⟨?_, hs2⟩
    apply triangulate_of_unique _ iter2 _ hp2 (by decide)
    · rw [← candScore_eq, hs2]
    · exact missing_aica_unique

/-- C6, an instance: the VRAM+MAIN pair of the arena at `0x1_0000_0000`, the map
iterated in insertion order. -/
theorem triangulate_two_regions_witness :
    candScore [⟨add64 0x100000000 OFF_VRAM, 0x800000⟩, ⟨add64 0x100000000 OFF_MAIN, 0x1000000⟩]
        0x100000000 = 2 ∧
      triangulateIter
        [⟨add64 0x100000000 OFF_VRAM, 0x800000⟩, ⟨add64 0x100000000 OFF_MAIN, 0x1000000⟩]
        (buildCand
          [⟨add64 0x100000000 OFF_VRAM, 0x800000⟩, ⟨add64 0x100000000 OFF_MAIN, 0x1000000⟩]) =
        some 0x100000000 := by
  have h := triangulate_two_regions 0x100000000 OFF_VRAM OFF_MAIN 0x800000 0x1000000
    (buildCand
      [⟨add64 0x100000000 OFF_VRAM, 0x800000⟩, ⟨add64 0x100000000 OFF_MAIN, 0x1000000⟩])
    (by decide) (Or.inl ⟨rfl, rfl⟩) (List.Perm.refl _)
  exact ⟨h.1, h.2.2.1 (by decide) rfl rfl (by decide) (by decide) (by decide) (by decide)⟩

/-- C6, as stated, fails: the MAIN+AICA pair and the VRAM+AICA pair of the arena at
`0x1_0000_0000`, with the sizes of the happy path, are rejected although the
candidate `0x1_0000_0000` has score 2. -/
theorem aica_pairs_rejected :
    candScore [⟨0x10C000000, 0x1000000⟩, ⟨0x120000000, 0x200000⟩] 0x100000000 = 2 ∧
      triangulateArenaBase [⟨0x10C000000, 0x1000000⟩, ⟨0x120000000, 0x200000⟩] = none ∧
      candScore [⟨0x104000000, 0x800000⟩, ⟨0x120000000, 0x200000⟩] 0x100000000 = 2 ∧
      triangulateArenaBase [⟨0x104000000, 0x800000⟩, ⟨0x120000000, 0x200000⟩] = none := by
  decide

theorem isRegionBase_iff (addr : Nat) (regs : List Region) :
    isRegionBase addr regs = true ↔ ∃ r ∈ regs, r.base = addr := by
  unfold isRegionBase
  simp [List.any_eq_true]

theorem isRegionBase_of_vote (regs : List Region) (hwf : RegionsWF regs) (k o : Nat)
    (ho : o < 18446744073709551616) (h : ∃ r ∈ regs, sub64 r.base o = k) :
    isRegionBase (add64 k o) regs = true := by
  obtain ⟨r, hr, e⟩ := h
  rw [isRegionBase_iff]
  refine ⟨r, hr, ?_⟩
  have hb := (hwf r hr).1
  simp only [sub64, add64] at e ⊢
  omega

/-- C7: whatever the iteration order, when the triangulator returns a base `B` the
score of `B` is at least 2 and at least two of `B + 0x04000000`, `B + 0x0C000000`,
`B + 0x20000000` (in 64-bit arithmetic) are exactly the base address of a listed
region; and a list whose regions all have the same base address (in particular a
one-region list of any size) is rejected. -/
theorem triangulate_needs_two_votes (regs : List Region) (iter : List (Nat × Acc))
    (hwf : RegionsWF regs) (hp : iter.Perm (buildCand regs)) :
    (∀ B, triangulateIter regs iter = some B →
      2 ≤ candScore regs B ∧
      ((isRegionBase (add64 B OFF_VRAM) regs = true ∧
          isRegionBase (add64 B OFF_MAIN) regs = true) ∨
        (isRegionBase (add64 B OFF_VRAM) regs = true ∧
          isRegionBase (add64 B OFF_AICA) regs = true) ∨
        (isRegionBase (add64 B OFF_MAIN) regs = true ∧
          isRegionBase (add64 B OFF_AICA) regs = true))) ∧
    ((∃ b, ∀ r ∈ regs, r.base = b) →
      triangulateIter regs iter = none ∧ locateFlycastArenaBase regs iter = none) := by
  have hV : OFF_VRAM < 18446744073709551616 := by decide
  have hM : OFF_MAIN < 18446744073709551616 := by decide
  have hA : OFF_AICA < 18446744073709551616 := by decide
  constructor
  · intro B hres
    obtain ⟨_, hs, _⟩ := triangulate_found regs iter B hp hres
    refine ⟨by rw [candScore_eq]; exact hs, ?_⟩
    rcases scoreOf_ge_two _ hs with ⟨h1, h2⟩ | ⟨h1, h2⟩ | ⟨h1, h2⟩
    · exact Or.inl ⟨isRegionBase_of_vote regs hwf B _ hV ((tally_v_pos B regs).mp h1),
        isRegionBase_of_vote regs hwf B _ hM ((tally_m_pos B regs).mp h2)⟩
    · exact Or.inr (Or.inl ⟨isRegionBase_of_vote regs hwf B _ hV ((tally_v_pos B regs).mp h1),
        isRegionBase_of_vote regs hwf B _ hA ((tally_a_pos B regs).mp h2)⟩)
    · exact Or.inr (Or.inr ⟨isRegionBase_of_vote regs hwf B _ hM ((tally_m_pos B regs).mp h1),
        isRegionBase_of_vote regs hwf B _ hA ((tally_a_pos B regs).mp h2)⟩)
  · rintro ⟨b, hb⟩
    have hnone : triangulateIter regs iter = none := by
      apply triangulate_none_of_scores regs iter hp
      intro k _
      by_contra hlt
      have hk : 2 ≤ scoreOf (tally k regs) := by omega
      rcases two_votes regs k hk with ⟨r1, hr1, r2, hr2, e1, e2⟩ | ⟨r1, hr1, r2, hr2, e1, e2⟩ |
          ⟨r1, hr1, r2, hr2, e1, e2⟩ <;>
        rw [hb r1 hr1] at e1 <;> rw [hb r2 hr2] at e2 <;>
        simp only [sub64, OFF_VRAM, OFF_MAIN, OFF_AICA] at e1 e2 <;> omega
    refine ⟨hnone, ?_⟩
    unfold locateFlycastArenaBase
    simp [hnone]

/-- C7, an instance: the happy-path list (accepted with three region bases hit) and
a one-region list (rejected), the map iterated in insertion order. -/
theorem triangulate_needs_two_votes_witness :
    (triangulateArenaBase
        [⟨0x100000000, 0x100000⟩, ⟨0x104000000, 0x800000⟩, ⟨0x10C000000, 0x1000000⟩,
         ⟨0x120000000, 0x200000⟩] = some 0x100000000 ∧
      2 ≤ candScore
        [⟨0x100000000, 0x100000⟩, ⟨0x104000000, 0x800000⟩, ⟨0x10C000000, 0x1000000⟩,
         ⟨0x120000000, 0x200000⟩] 0x100000000) ∧
    triangulateIter [⟨0x10C000000, 0x1000000⟩] (buildCand [⟨0x10C000000, 0x1000000⟩]) = none :=
  ⟨⟨by decide,
    ((triangulate_needs_two_votes
      [⟨0x100000000, 0x100000⟩, ⟨0x104000000, 0x800000⟩, ⟨0x10C000000, 0x1000000⟩,
       ⟨0x120000000, 0x200000⟩] _ (by decide) (List.Perm.refl _)).1 0x100000000
      (by decide)).1⟩,
   ((triangulate_needs_two_votes [⟨0x10C000000, 0x1000000⟩] _ (by decide)
      (List.Perm.refl _)).2 ⟨0x10C000000, by decide⟩).1⟩

/-- C8: for every region list and every iteration order, the result of the
triangulator (and of the Windows variant) is either not found or a base `B ≠ 0`;
base 0 is never returned. -/
theorem triangulate_never_zero (regs : List Region) (iter : List (Nat × Acc)) :
    (triangulateIter regs iter = none ∨ ∃ B, B ≠ 0 ∧ triangulateIter regs iter = some B) ∧
    (locateFlycastArenaBase regs iter = none ∨
      ∃ B, B ≠ 0 ∧ locateFlycastArenaBase regs iter = some B) := by
  have key : triangulateIter regs iter = none ∨
      ∃ B, B ≠ 0 ∧ triangulateIter regs iter = some B := by
    cases hres : triangulateIter regs iter with
    | none => exact Or.inl rfl
    | some B =>
      obtain ⟨_, _, hg, _, _⟩ := triangulateIter_some regs iter B hres
      exact Or.inr ⟨B, ((gateOk_iff regs B).mp hg).1, rfl⟩
  refine ⟨key, ?_⟩
  unfold locateFlycastArenaBase
  by_cases he : regs.isEmpty = true
  · left; simp [he]
  · simpa [he] using key

/-- C8, an instance: regions based exactly at `0x04000000`, `0x0C000000` and
`0x20000000` give candidate 0 all three votes, and the list is rejected. -/
theorem triangulate_never_zero_witness :
    candScore [⟨0x04000000, 0x800000⟩, ⟨0x0C000000, 0x1000000⟩, ⟨0x20000000, 0x200000⟩] 0 = 3 ∧
    triangulateArenaBase
      [⟨0x04000000, 0x800000⟩, ⟨0x0C000000, 0x1000000⟩, ⟨0x20000000, 0x200000⟩] = none ∧
    (triangulateIter
        [⟨0x04000000, 0x800000⟩, ⟨0x0C000000, 0x1000000⟩, ⟨0x20000000, 0x200000⟩]
        (buildCand
          [⟨0x04000000, 0x800000⟩, ⟨0x0C000000, 0x1000000⟩, ⟨0x20000000, 0x200000⟩]) = none ∨
      ∃ B, B ≠ 0 ∧ triangulateIter
        [⟨0x04000000, 0x800000⟩, ⟨0x0C000000, 0x1000000⟩, ⟨0x20000000, 0x200000⟩]
        (buildCand
          [⟨0x04000000, 0x800000⟩, ⟨0x0C000000, 0x1000000⟩, ⟨0x20000000, 0x200000⟩]) = some B) :=
  ⟨by decide, by decide, (triangulate_never_zero _ _).1⟩

theorem separated_pair_unique (b s1 s2 k : Nat) (regs : List Region)
    (hb : b < 18446744073709551616)
    (hregs : regs = [⟨b, s1⟩, ⟨add64 b 0x08000000, s2⟩] ∨
      regs = [⟨add64 b 0x08000000, s2⟩, ⟨b, s1⟩])
    (h : 2 ≤ scoreOf (tally k regs)) : k = sub64 b OFF_VRAM := by
  rcases hregs with rfl | rfl <;>
    rcases two_votes _ k h with ⟨r1, hr1, r2, hr2, e1, e2⟩ | ⟨r1, hr1, r2, hr2, e1, e2⟩ |
      ⟨r1, hr1, r2, hr2, e1, e2⟩ <;>
    simp only [List.mem_cons, List.mem_singleton, List.not_mem_nil, or_false] at hr1 hr2 <;>
    rcases hr1 with rfl | rfl <;> rcases hr2 with rfl | rfl <;>
    simp only [sub64, add64, OFF_VRAM, OFF_MAIN, OFF_AICA] at e1 e2 ⊢ <;> omega

/-- C9: gate soundness. Whenever the triangulator returns a base `B`, in any
iteration order, both `B + 0x04000000` and `B + 0x0C000000` (in 64-bit arithmetic)
lie inside some listed region, `r.base ≤ addr < r.base + r.size`; and a list of two
regions whose bases differ by exactly `0x0C000000 - 0x04000000`, for which the VRAM
and MAIN targets of the common candidate do not both lie inside a listed region, is
rejected. -/
theorem triangulate_gate_sound (regs : List Region) (iter : List (Nat × Acc)) :
    (∀ B, triangulateIter regs iter = some B →
      (∃ r ∈ regs, r.base ≤ add64 B OFF_VRAM ∧ add64 B OFF_VRAM < add64 r.base r.size) ∧
      (∃ r ∈ regs, r.base ≤ add64 B OFF_MAIN ∧ add64 B OFF_MAIN < add64 r.base r.size)) ∧
    (∀ b s1 s2, b < 18446744073709551616 →
      (regs = [⟨b, s1⟩, ⟨add64 b 0x08000000, s2⟩] ∨
        regs = [⟨add64 b 0x08000000, s2⟩, ⟨b, s1⟩]) →
      iter.Perm (buildCand regs) →
      (addressInRegionList (add64 (sub64 b OFF_VRAM) OFF_VRAM) regs = false ∨
        addressInRegionList (add64 (sub64 b OFF_VRAM) OFF_MAIN) regs = false) →
      triangulateIter regs iter = none) := by
  constructor
  · intro B hres
    obtain ⟨_, _, hg, _, _⟩ := triangulateIter_some regs iter B hres
    obtain ⟨_, hm, hv⟩ := (gateOk_iff regs B).mp hg
    exact ⟨(addressInRegionList_iff _ _).mp hv, (addressInRegionList_iff _ _).mp hm⟩
  · intro b s1 s2 hb hregs hp hgate
    apply triangulate_none_of_scores regs iter hp
    intro k hk
    by_contra hlt
    have hk2 : k = sub64 b OFF_VRAM :=
      separated_pair_unique b s1 s2 k regs hb hregs (by omega)
    rw [hk2] at hk
    obtain ⟨_, hm, hv⟩ := (gateOk_iff regs _).mp hk
    rcases hgate with hgate | hgate
    · rw [hgate] at hv; exact absurd hv (by decide)
    · rw [hgate] at hm; exact absurd hm (by decide)

/-- C9, an instance: the happy-path list is accepted and both targets of its base
lie in listed regions; two empty regions `0x08000000` apart are rejected. -/
theorem triangulate_gate_sound_witness :
    ((∃ r ∈ [(⟨0x100000000, 0x100000⟩ : Region), ⟨0x104000000, 0x800000⟩,
          ⟨0x10C000000, 0x1000000⟩, ⟨0x120000000, 0x200000⟩],
        r.base ≤ add64 0x100000000 OFF_VRAM ∧
          add64 0x100000000 OFF_VRAM < add64 r.base r.size) ∧
      (∃ r ∈ [(⟨0x100000000, 0x100000⟩ : Region), ⟨0x104000000, 0x800000⟩,
          ⟨0x10C000000, 0x1000000⟩, ⟨0x120000000, 0x200000⟩],
        r.base ≤ add64 0x100000000 OFF_MAIN ∧
          add64 0x100000000 OFF_MAIN < add64 r.base r.size)) ∧
    triangulateIter [⟨0x104000000, 0⟩, ⟨add64 0x104000000 0x08000000, 0⟩]
      (buildCand [⟨0x104000000, 0⟩, ⟨add64 0x104000000 0x08000000, 0⟩]) = none :=
  ⟨(triangulate_gate_sound _
      (buildCand [⟨0x100000000, 0x100000⟩, ⟨0x104000000, 0x800000⟩,
        ⟨0x10C000000, 0x1000000⟩, ⟨0x120000000, 0x200000⟩])).1 0x100000000 (by decide),
   (triangulate_gate_sound _ _).2 0x104000000 0 0 (by decide) (Or.inl rfl)
      (List.Perm.refl _) (Or.inl (by decide))⟩

/-! ## The swap switch is a byte reversal -/

theorem storeLE_loadLE (bs : List Byte) : storeLE bs.length (loadLE bs) = bs := by
  induction bs with
  | nil => rfl
  | cons b rest ih =>
    have hb := b.isLt
    have h1 : (b.val + 256 * loadLE rest) % 256 = b.val := by omega
    have h2 : (b.val + 256 * loadLE rest) / 256 = loadLE rest := by omega
    simp only [List.length_cons, loadLE, storeLE, h2, ih]
    congr 1
    exact Fin.ext h1

theorem bSwap16_bytes (a b : Nat) (ha : a < 256) (hb : b < 256) :
    bSwap16 (a + 256 * b) = b + 256 * a := by
  have h1 : (a + 256 * b) / 256 = b := by omega
  unfold bSwap16
  rw [h1]
  omega

theorem bSwap32_halves (lo hi : Nat) (hlo : lo < 65536) :
    bSwap32 (lo + 65536 * hi) = bSwap16 hi + 65536 * bSwap16 lo := by
  have h1 : (lo + 65536 * hi) % 65536 = lo := by omega
  have h2 : (lo + 65536 * hi) / 65536 = hi := by omega
  have h3 : bSwap16 hi < 65536 := by unfold bSwap16; omega
  have h4 : bSwap16 lo < 65536 := by unfold bSwap16; omega
  unfold bSwap32
  rw [h1, h2]
  omega

theorem bSwap64_halves (lo hi : Nat) (hlo : lo < 4294967296) :
    bSwap64 (lo + 4294967296 * hi) = bSwap32 hi + 4294967296 * bSwap32 lo := by
  have h1 : (lo + 4294967296 * hi) % 4294967296 = lo := by omega
  have h2 : (lo + 4294967296 * hi) / 4294967296 = hi := by omega
  have h3 : bSwap32 hi < 4294967296 := by unfold bSwap32; omega
  have h4 : bSwap32 lo < 4294967296 := by unfold bSwap32; omega
  unfold bSwap64
  rw [h1, h2]
  omega

theorem bSwap32_bytes (a b c d : Nat) (ha : a < 256) (hb : b < 256) (hc : c < 256)
    (hd : d < 256) :
    bSwap32 (a + 256 * (b + 256 * (c + 256 * d))) = d + 256 * (c + 256 * (b + 256 * a)) := by
  have e : a + 256 * (b + 256 * (c + 256 * d)) = (a + 256 * b) + 65536 * (c + 256 * d) := by
    omega
  rw [e, bSwap32_halves _ _ (by omega), bSwap16_bytes _ _ hc hd,
    bSwap16_bytes _ _ ha hb]
  omega

theorem bSwap64_bytes (a b c d e f g h : Nat) (ha : a < 256) (hb : b < 256) (hc : c < 256)
    (hd : d < 256) (he : e < 256) (hf : f < 256) (hg : g < 256) (hh : h < 256) :
    bSwap64 (a + 256 * (b + 256 * (c + 256 * (d + 256 * (e + 256 * (f + 256 * (g + 256 * h))))))) =
      h + 256 * (g + 256 * (f + 256 * (e + 256 * (d + 256 * (c + 256 * (b + 256 * a)))))) := by
  have e1 : a + 256 * (b + 256 * (c + 256 * (d + 256 * (e + 256 * (f + 256 * (g + 256 * h)))))) =
      (a + 256 * (b + 256 * (c + 256 * d))) +
        4294967296 * (e + 256 * (f + 256 * (g + 256 * h))) := by
    omega
  rw [e1, bSwap64_halves _ _ (by omega), bSwap32_bytes _ _ _ _ he hf hg hh,
    bSwap32_bytes _ _ _ _ ha hb hc hd]
  omega

theorem swapBySize_two (a b : Byte) : swapBySize 2 [a, b] = [b, a] := by
  have h : storeLE 2 (loadLE [b, a]) = [b, a] := storeLE_loadLE [b, a]
  simp only [loadLE, Nat.mul_zero, Nat.add_zero] at h
  simp only [swapBySize, List.take, List.drop, loadLE, Nat.mul_zero, Nat.add_zero,
    List.append_nil, if_true]
  rw [bSwap16_bytes _ _ a.isLt b.isLt]
  exact h

theorem swapBySize_four (a b c d : Byte) : swapBySize 4 [a, b, c, d] = [d, c, b, a] := by
  have h : storeLE 4 (loadLE [d, c, b, a]) = [d, c, b, a] := storeLE_loadLE [d, c, b, a]
  simp only [loadLE, Nat.mul_zero, Nat.add_zero] at h
  have e2 : ¬ (4 = 2) := by decide
  simp only [swapBySize, e2, List.take, List.drop, loadLE, Nat.mul_zero, Nat.add_zero,
    List.append_nil, if_true, if_false]
  rw [bSwap32_bytes _ _ _ _ a.isLt b.isLt c.isLt d.isLt]
  exact h

theorem swapBySize_eight (a b c d e f g h : Byte) :
    swapBySize 8 [a, b, c, d, e, f, g, h] = [h, g, f, e, d, c, b, a] := by
  have hs : storeLE 8 (loadLE [h, g, f, e, d, c, b, a]) = [h, g, f, e, d, c, b, a] :=
    storeLE_loadLE [h, g, f, e, d, c, b, a]
  simp only [loadLE, Nat.mul_zero, Nat.add_zero] at hs
  have e2 : ¬ (8 = 2) := by decide
  have e4 : ¬ (8 = 4) := by decide
  simp only [swapBySize, e2, e4, List.take, List.drop, loadLE, Nat.mul_zero, Nat.add_zero,
    List.append_nil, if_true, if_false]
  rw [bSwap64_bytes _ _ _ _ _ _ _ _ a.isLt b.isLt c.isLt d.isLt e.isLt f.isLt g.isLt h.isLt]
  exact hs

/-- On a buffer of exactly `size` bytes the swap switch is the swap policy of the
spec: a reversal for sizes 2, 4 and 8, nothing otherwise. -/
theorem swapBySize_eq_reverse (size : Nat) (bs : List Byte) (hlen : bs.length = size) :
    swapBySize size bs = swapPolicy true size bs := by
  unfold swapPolicy
  by_cases h2 : size = 2
  · subst h2
    obtain ⟨a, b, rfl⟩ := List.length_eq_two.mp hlen
    rw [swapBySize_two]; simp
  · by_cases h4 : size = 4
    · subst h4
      match bs, hlen with
      | [a, b, c, d], _ => rw [swapBySize_four]; simp
    · by_cases h8 : size = 8
      · subst h8
        match bs, hlen with
        | [a, b, c, d, e, f, g, h], _ => rw [swapBySize_eight]; simp
      · simp [swapBySize, h2, h4, h8]

/-! ## Transfers through the stub -/

theorem slice_length (w : Stub) (off len : Nat) : (w.slice off len).length = len := by
  simp [Stub.slice]

theorem slice_storeAt (ram : Nat → Byte) (off : Nat) (data : List Byte) :
    (List.range data.length).map (fun i => storeAt ram off data (off + i)) = data := by
  apply List.ext_getElem
  · simp
  · intro i h1 h2
    simp only [List.getElem_map, List.getElem_range, storeAt, List.get_eq_getElem,
      Nat.add_sub_cancel_left]
    rw [dif_pos ⟨Nat.le_add_right _ _, h2⟩]

theorem overlay_full (data buf : List Byte) (h : buf.length = data.length) :
    overlay data buf = data := by
  unfold overlay
  rw [List.drop_of_length_le (by omega)]
  simp

theorem swapPolicy_length (s : Bool) (n : Nat) (bs : List Byte) :
    (swapPolicy s n bs).length = bs.length := by
  unfold swapPolicy
  split <;> simp

theorem swapPolicy_involutive (s : Bool) (n : Nat) (bs : List Byte) :
    swapPolicy s n (swapPolicy s n bs) = bs := by
  unfold swapPolicy
  split <;> simp

theorem writeSource_eq (buf : List Byte) (n : Nat) (s : Bool) (h : buf.length = n) :
    writeSource buf n s = swapPolicy s n buf := by
  unfold writeSource
  have ht : buf.take n = buf := by rw [← h]; exact List.take_length buf
  rw [ht]
  cases s
  · simp [swapPolicy]
  · simp only [if_true]; exact swapBySize_eq_reverse n buf h

theorem probe_read_stub (iter : List (Nat × Acc) → List (Nat × Acc)) (p : Probe) (w : Stub)
    (o n : Nat) (dst : List Byte) (s : Bool) (hatt : ProbeAttached p w) (hn : 0 < n)
    (hon : o + n ≤ w.ramSize) (hdst : dst.length = n) :
    p.readFromRAM (stubHost iter) w o (some dst) n s =
      (true, some (swapPolicy s n (w.slice o n)),
        { w with calls := (w.ramBase + o, n) :: w.calls }) := by
  obtain ⟨hpid, hpos, hram, hbase, hfit, hshort⟩ := hatt
  have haddr : add64 w.ramBase o = w.ramBase + o := by
    unfold add64; exact Nat.mod_eq_of_lt (by omega)
  have hguard : ¬ (p.m_PID ≤ 0 ∨ n = 0 ∨ p.m_emuRAMAddressStart = 0) := by
    rw [hpid, hram]; omega
  have hcond : w.pid = w.pid ∧ w.ramBase ≤ w.ramBase + o ∧
      w.ramBase + o + n ≤ w.ramBase + w.ramSize := ⟨rfl, by omega, by omega⟩
  have hov : overlay (w.slice o n) dst = w.slice o n :=
    overlay_full _ _ (by rw [slice_length, hdst])
  unfold Probe.readFromRAM
  simp only [hguard, if_false]
  simp only [stubHost, hpid, hram, haddr, hcond, and_self, if_true, hshort, Nat.sub_zero,
    Nat.add_sub_cancel_left, ne_eq, not_true_eq_false, if_false, hov]
  cases s
  · simp [swapPolicy]
  · simp only [if_true]
    rw [swapBySize_eq_reverse n _ (slice_length w o n)]

theorem probe_write_stub (iter : List (Nat × Acc) → List (Nat × Acc)) (p : Probe) (w : Stub)
    (o n : Nat) (buf : List Byte) (s : Bool) (hatt : ProbeAttached p w) (hn : 0 < n)
    (hon : o + n ≤ w.ramSize) (hbuf : buf.length = n) :
    p.writeToRAM (stubHost iter) w o (some buf) n s =
      (true, some buf,
        { w with ram := storeAt w.ram o (swapPolicy s n buf)
                 calls := (w.ramBase + o, n) :: w.calls }) := by
  obtain ⟨hpid, hpos, hram, hbase, hfit, hshort⟩ := hatt
  have haddr : add64 w.ramBase o = w.ramBase + o := by
    unfold add64; exact Nat.mod_eq_of_lt (by omega)
  have hguard : ¬ (p.m_PID ≤ 0 ∨ n = 0 ∨ p.m_emuRAMAddressStart = 0) := by
    rw [hpid, hram]; omega
  have hlen : (swapPolicy s n buf).length = n := by rw [swapPolicy_length, hbuf]
  have hcond : w.ramBase + o + n ≤ w.ramBase + w.ramSize := by omega
  have hle : w.ramBase ≤ w.ramBase + o := by omega
  unfold Probe.writeToRAM
  simp only [hguard, if_false]
  simp only [stubHost, hpid, hram, haddr, writeSource_eq buf n s hbuf, hcond, hle, and_self,
    if_true, hlen, Nat.add_sub_cancel_left, decide_True]

/-! ## The facade -/

theorem triangulateIter_nil (iter : List (Nat × Acc)) : triangulateIter [] iter = none := by
  cases hres : triangulateIter [] iter with
  | none => rfl
  | some B =>
    obtain ⟨_, _, hg, _, _⟩ := triangulateIter_some [] iter B hres
    obtain ⟨_, hm, _⟩ := (gateOk_iff [] B).mp hg
    simp [addressInRegionList] at hm

theorem readProcMaps_flag {σ : Type} (h : Host σ) (w : σ) (pid : Int) :
    (readProcMaps h w pid).1 = false ↔ regionsOf h w pid = [] := by
  unfold regionsOf readProcMaps
  cases h.procMaps w pid with
  | none => simp
  | some lines => simp [List.isEmpty_iff]

theorem obtain_eq {σ : Type} (h : Host σ) (w : σ) (p : Probe) :
    obtainEmuRAMInformations h w p =
      if p.m_PID ≤ 0 then (false, p, w)
      else match arenaOf h w p.m_PID with
        | none => (false, p, w)
        | some B =>
          (decide (probeBytes h w p.m_PID B = 16),
            { p with
              m_emuRAMAddressStart := add64 B OFF_MAIN
              m_emuARAMAdressStart := add64 B OFF_AICA
              m_ARAMAccessible := true },
            (h.process_vm_readv w p.m_PID (add64 B OFF_MAIN) 16).2.2) := by
  unfold obtainEmuRAMInformations
  by_cases hpid : p.m_PID ≤ 0
  · simp only [hpid, if_true]
  · simp only [hpid, if_false]
    by_cases hr : (readProcMaps h w p.m_PID).1 = false
    · have hnil := (readProcMaps_flag h w p.m_PID).mp hr
      have hnone : arenaOf h w p.m_PID = none := by
        unfold arenaOf; rw [hnil]; exact triangulateIter_nil _
      simp only [hr, if_true, hnone]
    · simp only [hr, if_false]
      show (match arenaOf h w p.m_PID with
        | none => (false, p, w)
        | some ram_base => _) = _
      cases arenaOf h w p.m_PID with
      | none => rfl
      | some B =>
        simp only [probeBytes]
        by_cases hn : (h.process_vm_readv w p.m_PID (add64 B OFF_MAIN) 16).1 = 16
        · simp [hn]
        · simp [hn]

theorem scanProc_pos (ov : Option String) (es : List (Int × String)) (pid : Int)
    (hpos : ∀ e ∈ es, 0 < e.1) (h : scanProc ov es = some pid) : 0 < pid := by
  induction es with
  | nil => simp [scanProc] at h
  | cons e rest ih =>
    unfold scanProc at h
    by_cases hm : nameMatches ov e.2 = true
    · rw [if_pos hm] at h
      have : e.1 = pid := Option.some.inj h
      rw [← this]
      exact hpos e (List.mem_cons_self _ _)
    · rw [if_neg hm] at h
      exact ih (fun x hx => hpos x (List.mem_cons_of_mem _ hx)) h

theorem findPID_none {σ : Type} (h : Host σ) (w : σ) (p : Probe)
    (hf : foundPID h w = none) : (findPID h w p).1 = false := by
  unfold foundPID at hf
  unfold findPID
  cases he : h.procEntries w with
  | none => rfl
  | some es =>
    rw [he] at hf
    simp only [Option.bind] at hf
    simp [hf]

theorem findPID_found {σ : Type} (h : Host σ) (w : σ) (p : Probe) (pid : Int)
    (hf : foundPID h w = some pid) (hne : pid ≠ -1) :
    findPID h w p = (true, { p with m_PID := pid }) := by
  unfold foundPID at hf
  unfold findPID
  cases he : h.procEntries w with
  | none => rw [he] at hf; simp at hf
  | some es =>
    rw [he] at hf
    simp only [Option.bind] at hf
    simp [hf, hne]

theorem findPID_some {σ : Type} (h : Host σ) (w : σ) (p : Probe) (pid : Int)
    (hpos : ∀ es, h.procEntries w = some es → ∀ e ∈ es, 0 < e.1)
    (hf : foundPID h w = some pid) :
    findPID h w p = (true, { p with m_PID := pid }) ∧ 0 < pid := by
  have hp : 0 < pid := by
    unfold foundPID at hf
    cases he : h.procEntries w with
    | none => rw [he] at hf; simp at hf
    | some es =>
      rw [he] at hf
      exact scanProc_pos _ es pid (hpos es he) hf
  exact ⟨findPID_found h w p pid hf (by omega), hp⟩

theorem hook_closed_form {σ : Type} (h : Host σ) (f : FlycastAccessor) (w : σ)
    (hpos : ∀ es, h.procEntries w = some es → ∀ e ∈ es, 0 < e.1) :
    (f.hook h w).1.m_status =
      match foundPID h w with
      | none => FlycastStatus.notRunning
      | some pid =>
        match arenaOf h w pid with
        | none => FlycastStatus.noEmu
        | some B =>
          if probeBytes h w pid B = 16 then FlycastStatus.hooked else FlycastStatus.noEmu := by
  unfold FlycastAccessor.hook
  cases hf : foundPID h w with
  | none =>
    simp [findPID_none h w {} hf]
  | some pid =>
    obtain ⟨hfp, hp⟩ := findPID_some h w {} pid hpos hf
    have hnp : ¬ pid ≤ 0 := by omega
    simp only [hfp, obtain_eq, hnp, if_false]
    cases arenaOf h w pid with
    | none => simp
    | some B =>
      by_cases hn : probeBytes h w pid B = 16
      · simp [hn]
      · simp [hn]

/-- C1: in every facade state whose status is not `hooked`, for every host system,
offset, length, buffer and swap flag, `readFromRAM` and `writeToRAM` return false and
leave the caller's buffer and the outside world (hence any record of transfers)
untouched: the probe is not called. The initial state and every state after
`unHook` are such states. -/
theorem not_hooked_transfers_fail {σ : Type} (h : Host σ) (f : FlycastAccessor) (w : σ)
    (offset size : Nat) (buffer : Option (List Byte)) (withBSwap : Bool)
    (hs : f.m_status ≠ FlycastStatus.hooked) :
    f.readFromRAM h w offset buffer size withBSwap = (false, buffer, w) ∧
    f.writeToRAM h w offset buffer size withBSwap = (false, buffer, w) ∧
    FlycastAccessor.initial.readFromRAM h w offset buffer size withBSwap = (false, buffer, w) ∧
    FlycastAccessor.initial.writeToRAM h w offset buffer size withBSwap = (false, buffer, w) ∧
    (∀ g : FlycastAccessor,
      g.unHook.readFromRAM h w offset buffer size withBSwap = (false, buffer, w) ∧
      g.unHook.writeToRAM h w offset buffer size withBSwap = (false, buffer, w)) := by
  refine ⟨?_, ?_, rfl, rfl, fun g => ⟨rfl, rfl⟩⟩
  · unfold FlycastAccessor.readFromRAM
    cases f.m_instance with
    | none => rfl
    | some p => simp [hs]
  · unfold FlycastAccessor.writeToRAM
    cases f.m_instance with
    | none => rfl
    | some p => simp [hs]

/-- C1, an instance: the no-process scenario. After `hook` on a world without a
matching process the status is `notRunning`, and `read(0, 4)` fails with the
transfer log of the stub still empty. -/
theorem not_hooked_transfers_fail_witness :
    (FlycastAccessor.initial.hook (stubHost id) emptyWorld).1.m_status =
      FlycastStatus.notRunning ∧
    (FlycastAccessor.initial.hook (stubHost id) emptyWorld).1.readFromRAM (stubHost id)
      emptyWorld 0 (some [0, 0, 0, 0]) 4 false = (false, some [0, 0, 0, 0], emptyWorld) ∧
    emptyWorld.calls = [] :=
  ⟨by decide,
   (not_hooked_transfers_fail (stubHost id)
      (FlycastAccessor.initial.hook (stubHost id) emptyWorld).1 emptyWorld 0 4
      (some [0, 0, 0, 0]) false (by decide)).1,
   rfl⟩

/-- C2: the status after `hook` does not depend on the prior state of the facade.
On a host whose enumerated PIDs are positive it is `notRunning` when no process
matches; `noEmu` when a process is found but the region list is empty, or the
triangulation finds nothing, or the 16-byte probe read at the main-RAM address
transfers a number of bytes other than 16; and `hooked` exactly when a process is
found, the triangulation succeeds and the probe read returns 16. -/
theorem hook_status {σ : Type} (h : Host σ) (f : FlycastAccessor) (w : σ)
    (hpos : ∀ es, h.procEntries w = some es → ∀ e ∈ es, 0 < e.1) :
    (∀ g : FlycastAccessor, (g.hook h w).1.m_status = (f.hook h w).1.m_status) ∧
    (foundPID h w = none → (f.hook h w).1.m_status = FlycastStatus.notRunning) ∧
    (∀ pid, foundPID h w = some pid →
      (regionsOf h w pid = [] ∨ arenaOf h w pid = none ∨
        ∃ B, arenaOf h w pid = some B ∧ probeBytes h w pid B ≠ 16) →
      (f.hook h w).1.m_status = FlycastStatus.noEmu) ∧
    ((f.hook h w).1.m_status = FlycastStatus.hooked ↔
      ∃ pid B, foundPID h w = some pid ∧ arenaOf h w pid = some B ∧
        probeBytes h w pid B = 16) := by
  have hf := hook_closed_form h f w hpos
  refine ⟨fun g => by rw [hook_closed_form h g w hpos, hf], ?_, ?_, ?_⟩
  · intro hnone
    rw [hf, hnone]
  · intro pid hpid hfail
    rw [hf, hpid]
    rcases hfail with hnil | hnone | ⟨B, hB, hn⟩
    · have hnone : arenaOf h w pid = none := by
        unfold arenaOf; rw [hnil]; exact triangulateIter_nil _
      simp [hnone]
    · simp [hnone]
    · simp [hB, hn]
  · rw [hf]
    constructor
    · intro hk
      cases hpid : foundPID h w with
      | none => rw [hpid] at hk; simp at hk
      | some pid =>
        rw [hpid] at hk
        dsimp only at hk
        cases hB : arenaOf h w pid with
        | none => rw [hB] at hk; simp at hk
        | some B =>
          rw [hB] at hk
          by_cases hn : probeBytes h w pid B = 16
          · exact ⟨pid, B, rfl, hB, hn⟩
          · simp [hn] at hk
    · rintro ⟨pid, B, hpid, hB, hn⟩
      simp [hpid, hB, hn]

/-- C2, an instance: on the stub the happy path ends `hooked`, the probe-fails
scenario (15 bytes instead of 16) ends `noEmu`, and the no-process scenario ends
`notRunning`. -/
theorem hook_status_witness :
    (FlycastAccessor.initial.hook (stubHost id) happyWorld).1.m_status =
      FlycastStatus.hooked ∧
    probeBytes (stubHost id) shortWorld 4242 0x100000000 = 15 ∧
    (FlycastAccessor.initial.hook (stubHost id) shortWorld).1.m_status =
      FlycastStatus.noEmu ∧
    (FlycastAccessor.initial.hook (stubHost id) emptyWorld).1.m_status =
      FlycastStatus.notRunning :=
  ⟨(hook_status (stubHost id) FlycastAccessor.initial happyWorld (by decide)).2.2.2.mpr
      ⟨4242, 0x100000000, by decide, by decide, by decide⟩,
   by decide,
   (hook_status (stubHost id) FlycastAccessor.initial shortWorld (by decide)).2.2.1 4242
      (by decide) (Or.inr (Or.inr ⟨0x100000000, by decide, by decide⟩)),
   (hook_status (stubHost id) FlycastAccessor.initial emptyWorld (by decide)).2.1 (by decide)⟩

/-- C3: round trip over the stub, whose target memory is a byte array of 16 MiB.
With the facade hooked on the target, for every offset `o` and length `n ≥ 1` with
`o + n ≤ 16 MiB`, every `n`-byte buffer `B` and either value of the swap flag `s`,
`writeToRAM(o, B, n, s)` succeeds and a following `readFromRAM(o, n, s)` with the
same flag succeeds and yields exactly `B`; this covers `n ∈ {1, 2, 4, 8}` without
swap and `n ∈ {2, 4, 8}` with swap. -/
theorem write_read_roundtrip (iter : List (Nat × Acc) → List (Nat × Acc))
    (f : FlycastAccessor) (w : Stub) (o n : Nat) (B dst : List Byte) (s : Bool)
    (hatt : Attached f w) (hsize : w.ramSize = 16777216) (hn : 0 < n)
    (hon : o + n ≤ 16777216) (hB : B.length = n) (hdst : dst.length = n) :
    (f.writeToRAM (stubHost iter) w o (some B) n s).1 = true ∧
    (f.readFromRAM (stubHost iter) (f.writeToRAM (stubHost iter) w o (some B) n s).2.2
      o (some dst) n s).1 = true ∧
    (f.readFromRAM (stubHost iter) (f.writeToRAM (stubHost iter) w o (some B) n s).2.2
      o (some dst) n s).2.1 = some B := by
  obtain ⟨hst, p, hinst, hpa⟩ := hatt
  have hw : f.writeToRAM (stubHost iter) w o (some B) n s =
      p.writeToRAM (stubHost iter) w o (some B) n s := by
    unfold FlycastAccessor.writeToRAM; rw [hinst]; simp [hst]
  have hr : ∀ w2 : Stub, f.readFromRAM (stubHost iter) w2 o (some dst) n s =
      p.readFromRAM (stubHost iter) w2 o (some dst) n s := by
    intro w2; unfold FlycastAccessor.readFromRAM; rw [hinst]; simp [hst]
  rw [hr, hw, probe_write_stub iter p w o n B s hpa hn (by omega) hB]
  have hpa2 : ProbeAttached p
      { w with ram := storeAt w.ram o (swapPolicy s n B)
               calls := (w.ramBase + o, n) :: w.calls } := hpa
  rw [probe_read_stub iter p _ o n dst s hpa2 hn (by show o + n ≤ w.ramSize; omega) hdst]
  refine ⟨rfl, rfl, ?_⟩
  have hlen : (swapPolicy s n B).length = n := by rw [swapPolicy_length, hB]
  have hsl : Stub.slice { w with ram := storeAt w.ram o (swapPolicy s n B)
                                 calls := (w.ramBase + o, n) :: w.calls } o n =
      swapPolicy s n B := by
    have := slice_storeAt w.ram o (swapPolicy s n B)
    rw [hlen] at this
    exact this
  simp only [hsl, swapPolicy_involutive]

/-- C3, an instance: scenario 5 on the happy-path stub, hooked by `hook`: writing
`[0x11, 0x22, 0x33, 0x44]` at offset `0x100` with swap and reading it back with swap
yields the same four bytes. -/
theorem write_read_roundtrip_witness :
    ((FlycastAccessor.initial.hook (stubHost id) happyWorld).1.writeToRAM (stubHost id)
      happyWorld 0x100 (some [0x11, 0x22, 0x33, 0x44]) 4 true).1 = true ∧
    ((FlycastAccessor.initial.hook (stubHost id) happyWorld).1.readFromRAM (stubHost id)
      ((FlycastAccessor.initial.hook (stubHost id) happyWorld).1.writeToRAM (stubHost id)
        happyWorld 0x100 (some [0x11, 0x22, 0x33, 0x44]) 4 true).2.2
      0x100 (some [0, 0, 0, 0]) 4 true).1 = true ∧
    ((FlycastAccessor.initial.hook (stubHost id) happyWorld).1.readFromRAM (stubHost id)
      ((FlycastAccessor.initial.hook (stubHost id) happyWorld).1.writeToRAM (stubHost id)
        happyWorld 0x100 (some [0x11, 0x22, 0x33, 0x44]) 4 true).2.2
      0x100 (some [0, 0, 0, 0]) 4 true).2.1 = some [0x11, 0x22, 0x33, 0x44] :=
  write_read_roundtrip id (FlycastAccessor.initial.hook (stubHost id) happyWorld).1 happyWorld
    0x100 4 [0x11, 0x22, 0x33, 0x44] [0, 0, 0, 0] true
    ⟨by decide, ⟨4242, 0x10C000000, 0x120000000, true⟩, by decide,
      ⟨rfl, by decide, rfl, by decide, by decide, rfl⟩⟩
    rfl (by decide) (by decide) rfl rfl

/-- C4: byte-swap policy of the probe, on the stub. A read of `n` bytes returns the
bytes stored in target memory, reversed when the swap flag is set and `n` is 2, 4 or
8 and unchanged otherwise (any other length, or no swap flag); a write stores the
caller's bytes, reversed under the same condition and unchanged otherwise; and the
caller's buffer after a write is the buffer passed in. -/
theorem swap_policy (iter : List (Nat × Acc) → List (Nat × Acc)) (p : Probe) (w : Stub)
    (o n : Nat) (B dst : List Byte) (s : Bool) (hatt : ProbeAttached p w) (hn : 0 < n)
    (hon : o + n ≤ w.ramSize) (hB : B.length = n) (hdst : dst.length = n) :
    (p.readFromRAM (stubHost iter) w o (some dst) n s).1 = true ∧
    (p.readFromRAM (stubHost iter) w o (some dst) n s).2.1 =
      some (if s = true ∧ (n = 2 ∨ n = 4 ∨ n = 8) then (w.slice o n).reverse
        else w.slice o n) ∧
    (p.writeToRAM (stubHost iter) w o (some B) n s).1 = true ∧
    (p.writeToRAM (stubHost iter) w o (some B) n s).2.2.slice o n =
      (if s = true ∧ (n = 2 ∨ n = 4 ∨ n = 8) then B.reverse else B) ∧
    (p.writeToRAM (stubHost iter) w o (some B) n s).2.1 = some B := by
  rw [probe_read_stub iter p w o n dst s hatt hn hon hdst,
    probe_write_stub iter p w o n B s hatt hn hon hB]
  refine ⟨rfl, rfl, rfl, ?_, rfl⟩
  have hlen : (swapPolicy s n B).length = n := by rw [swapPolicy_length, hB]
  have := slice_storeAt w.ram o (swapPolicy s n B)
  rw [hlen] at this
  exact this

/-- C4, an instance: on the happy-path stub, writing `[0x11, 0x22, 0x33, 0x44]` at
offset `0x100` with swap stores `[0x44, 0x33, 0x22, 0x11]` and leaves the caller's
buffer as it was. -/
theorem swap_policy_witness :
    ((⟨4242, 0x10C000000, 0x120000000, true⟩ : Probe).writeToRAM (stubHost id) happyWorld
      0x100 (some [0x11, 0x22, 0x33, 0x44]) 4 true).2.2.slice 0x100 4 =
      [0x44, 0x33, 0x22, 0x11] ∧
    ((⟨4242, 0x10C000000, 0x120000000, true⟩ : Probe).writeToRAM (stubHost id) happyWorld
      0x100 (some [0x11, 0x22, 0x33, 0x44]) 4 true).2.1 = some [0x11, 0x22, 0x33, 0x44] :=
  ⟨(swap_policy id ⟨4242, 0x10C000000, 0x120000000, true⟩ happyWorld 0x100 4
      [0x11, 0x22, 0x33, 0x44] [0, 0, 0, 0] true
      ⟨rfl, by decide, rfl, by decide, by decide, rfl⟩ (by decide) (by decide) rfl rfl).2.2.2.1,
   (swap_policy id ⟨4242, 0x10C000000, 0x120000000, true⟩ happyWorld 0x100 4
      [0x11, 0x22, 0x33, 0x44] [0, 0, 0, 0] true
      ⟨rfl, by decide, rfl, by decide, by decide, rfl⟩ (by decide) (by decide) rfl rfl).2.2.2.2⟩

theorem happy_unique (k : Nat) (h : 2 ≤ scoreOf (tally k happyRegions)) :
    k = 0x100000000 := by
  unfold happyRegions at h
  rcases two_votes _ k h with ⟨r1, hr1, r2, hr2, e1, e2⟩ | ⟨r1, hr1, r2, hr2, e1, e2⟩ |
      ⟨r1, hr1, r2, hr2, e1, e2⟩ <;>
    simp only [List.mem_cons, List.mem_singleton, List.not_mem_nil, or_false] at hr1 hr2 <;>
    rcases hr1 with rfl | rfl | rfl | rfl <;> rcases hr2 with rfl | rfl | rfl | rfl <;>
    simp only [sub64, OFF_VRAM, OFF_MAIN, OFF_AICA] at e1 e2 <;> omega

theorem happy_triangulate (iter : List (Nat × Acc)) (hp : iter.Perm (buildCand happyRegions)) :
    triangulateIter happyRegions iter = some 0x100000000 :=
  triangulate_of_unique happyRegions iter 0x100000000 hp (by decide)
    (by rw [← candScore_eq]; decide) happy_unique

/-- C10: postcondition of `obtainEmuRAMInformations`. When it succeeds, the
triangulation returned some base `B`, and in 64-bit arithmetic the main-RAM address
is `B + 0x0C000000`, the ARAM address is `B + 0x20000000`, their difference is
`0x14000000` whatever `B` is, and the ARAM flag is set (whether or not a region voted
for the AICA offset); when `B + 0x20000000` does not wrap these are the plain sums.
On the happy-path region list with a succeeding probe, `hook` ends `hooked` with
`ramStart() = 0x1_0C00_0000`, `aramStart() = 0x1_2000_0000` and the ARAM flag set, in
every iteration order of the candidate map. -/
theorem obtain_postcondition {σ : Type} (h : Host σ) (w : σ) (p : Probe)
    (f : FlycastAccessor) :
    ((obtainEmuRAMInformations h w p).1 = true →
      ∃ B, arenaOf h w p.m_PID = some B ∧
        (obtainEmuRAMInformations h w p).2.1.m_emuRAMAddressStart = add64 B OFF_MAIN ∧
        (obtainEmuRAMInformations h w p).2.1.m_emuARAMAdressStart = add64 B OFF_AICA ∧
        sub64 (obtainEmuRAMInformations h w p).2.1.m_emuARAMAdressStart
          (obtainEmuRAMInformations h w p).2.1.m_emuRAMAddressStart = 0x14000000 ∧
        (obtainEmuRAMInformations h w p).2.1.m_ARAMAccessible = true ∧
        (B + 0x20000000 < 18446744073709551616 →
          (obtainEmuRAMInformations h w p).2.1.m_emuRAMAddressStart = B + 0x0C000000 ∧
          (obtainEmuRAMInformations h w p).2.1.m_emuARAMAdressStart = B + 0x20000000 ∧
          (obtainEmuRAMInformations h w p).2.1.m_emuARAMAdressStart -
            (obtainEmuRAMInformations h w p).2.1.m_emuRAMAddressStart = 0x14000000)) ∧
    (∀ pid, foundPID h w = some pid → 0 < pid → regionsOf h w pid = happyRegions →
      (h.mapIter (buildCand happyRegions)).Perm (buildCand happyRegions) →
      probeBytes h w pid 0x100000000 = 16 →
      (f.hook h w).1.m_status = FlycastStatus.hooked ∧
      (f.hook h w).1.getRAMAddressStart = 0x10C000000 ∧
      (f.hook h w).1.getARAMAddressStart = 0x120000000 ∧
      (f.hook h w).1.isARAMAccessible = true) := by
  constructor
  · intro hok
    rw [obtain_eq] at hok ⊢
    by_cases hpid : p.m_PID ≤ 0
    · simp [hpid] at hok
    · simp only [hpid, if_false] at hok ⊢
      cases hB : arenaOf h w p.m_PID with
      | none => rw [hB] at hok; simp at hok
      | some B =>
        refine ⟨B, rfl, rfl, rfl, ?_, rfl, ?_⟩
        · show sub64 (add64 B OFF_AICA) (add64 B OFF_MAIN) = 0x14000000
          simp only [sub64, add64, OFF_AICA, OFF_MAIN]
          omega
        · intro hnw
          show add64 B OFF_MAIN = B + 0x0C000000 ∧ add64 B OFF_AICA = B + 0x20000000 ∧
            add64 B OFF_AICA - add64 B OFF_MAIN = 0x14000000
          simp only [add64, OFF_AICA, OFF_MAIN]
          omega
  · intro pid hpid hpos hregs hperm hprobe
    have hfp := findPID_found h w {} pid hpid (by omega)
    have hnp : ¬ pid ≤ 0 := by omega
    have harena : arenaOf h w pid = some 0x100000000 := by
      unfold arenaOf
      rw [hregs]
      exact happy_triangulate _ hperm
    unfold FlycastAccessor.hook
    simp only [hfp, obtain_eq, hnp, if_false, harena, hprobe, decide_True]
    refine ⟨by simp, ?_, ?_, ?_⟩ <;>
      simp [FlycastAccessor.getRAMAddressStart, FlycastAccessor.getARAMAddressStart,
        FlycastAccessor.isARAMAccessible, add64, OFF_MAIN, OFF_AICA]

/-- C10, an instance: on the Missing-AICA world no region votes for the AICA offset
of the accepted base, `obtainEmuRAMInformations` succeeds with the ARAM flag set and
the two addresses `0x14000000` apart; on the happy-path world `hook` ends `hooked`
with `ramStart() = 0x1_0C00_0000` and `aramStart() = 0x1_2000_0000`. -/
theorem obtain_postcondition_witness :
    (tally 0x100000000 (regionsOf (stubHost id) missingAicaWorld 4242)).a = 0 ∧
    (∃ B, arenaOf (stubHost id) missingAicaWorld 4242 = some B ∧
      (obtainEmuRAMInformations (stubHost id) missingAicaWorld
        { m_PID := 4242 }).2.1.m_emuRAMAddressStart = add64 B OFF_MAIN ∧
      (obtainEmuRAMInformations (stubHost id) missingAicaWorld
        { m_PID := 4242 }).2.1.m_emuARAMAdressStart = add64 B OFF_AICA ∧
      sub64
        (obtainEmuRAMInformations (stubHost id) missingAicaWorld
          { m_PID := 4242 }).2.1.m_emuARAMAdressStart
        (obtainEmuRAMInformations (stubHost id) missingAicaWorld
          { m_PID := 4242 }).2.1.m_emuRAMAddressStart = 0x14000000 ∧
      (obtainEmuRAMInformations (stubHost id) missingAicaWorld
        { m_PID := 4242 }).2.1.m_ARAMAccessible = true) ∧
    ((FlycastAccessor.initial.hook (stubHost id) happyWorld).1.m_status =
        FlycastStatus.hooked ∧
      (FlycastAccessor.initial.hook (stubHost id) happyWorld).1.getRAMAddressStart =
        0x10C000000 ∧
      (FlycastAccessor.initial.hook (stubHost id) happyWorld).1.getARAMAddressStart =
        0x120000000 ∧
      (FlycastAccessor.initial.hook (stubHost id) happyWorld).1.isARAMAccessible = true) := by
  refine ⟨by decide, ?_, ?_⟩
  · obtain ⟨B, h1, h2, h3, h4, h5, _⟩ :=
      (obtain_postcondition (stubHost id) missingAicaWorld { m_PID := 4242 }
        FlycastAccessor.initial).1 (by decide)
    exact ⟨B, h1, h2, h3, h4, h5⟩
  · exact (obtain_postcondition (stubHost id) happyWorld { m_PID := 4242 }
      FlycastAccessor.initial).2 4242 (by decide) (by decide) (by decide)
      (List.Perm.refl _) (by decide)

/-! ## The attachment state machine -/

theorem hook_hooked_ram {σ : Type} (h : Host σ) (f : FlycastAccessor) (w : σ)
    (hz : NoRegionAtZero h w) (hs : (f.hook h w).1.m_status = FlycastStatus.hooked) :
    (f.hook h w).1.getRAMAddressStart ≠ 0 := by
  unfold FlycastAccessor.hook at hs ⊢
  by_cases hfp : (findPID h w {}).1 = false
  · simp [hfp] at hs
  · simp only [hfp, if_false] at hs ⊢
    rw [obtain_eq] at hs ⊢
    by_cases hpid : (findPID h w {}).2.m_PID ≤ 0
    · simp [hpid] at hs
    · simp only [hpid, if_false] at hs ⊢
      cases hB : arenaOf h w (findPID h w {}).2.m_PID with
      | none => rw [hB] at hs; simp at hs
      | some B =>
        rw [hB] at hs
        obtain ⟨_, _, hg, _, _⟩ := triangulateIter_some _ _ B hB
        obtain ⟨_, hm, _⟩ := (gateOk_iff _ B).mp hg
        obtain ⟨r, hr, hle, _⟩ := (addressInRegionList_iff _ _).mp hm
        have hr0 := hz _ r hr
        have hne : add64 B OFF_MAIN ≠ 0 := by omega
        by_cases hn : probeBytes h w (findPID h w {}).2.m_PID B = 16
        · simpa [hn, FlycastAccessor.getRAMAddressStart] using hne
        · simp [hn] at hs

theorem probe_read_call (σ : Type) (h : Host σ) (p : Probe) (w : σ) (offset size : Nat)
    (buffer : Option (List Byte)) (withBSwap : Bool) :
    (p.readFromRAMCall h w offset buffer size withBSwap).1 = p ∧
    (p.readFromRAMCall h w offset buffer size withBSwap).2 =
      p.readFromRAM h w offset buffer size withBSwap := by
  unfold Probe.readFromRAMCall Probe.readFromRAM
  cases buffer with
  | none => exact ⟨rfl, rfl⟩
  | some buf =>
    by_cases hg : p.m_PID ≤ 0 ∨ size = 0 ∨ p.m_emuRAMAddressStart = 0
    · simp only [if_pos hg, and_self]
    · simp only [if_neg hg]
      by_cases hn : (h.process_vm_readv w p.m_PID (add64 p.m_emuRAMAddressStart offset)
          size).1 ≠ (size : Int)
      · simp only [if_pos hn, and_self]
      · simp only [if_neg hn]
        cases withBSwap <;> exact ⟨rfl, rfl⟩

theorem probe_write_call (σ : Type) (h : Host σ) (p : Probe) (w : σ) (offset size : Nat)
    (buffer : Option (List Byte)) (withBSwap : Bool) :
    (p.writeToRAMCall h w offset buffer size withBSwap).1 = p ∧
    (p.writeToRAMCall h w offset buffer size withBSwap).2 =
      p.writeToRAM h w offset buffer size withBSwap := by
  unfold Probe.writeToRAMCall Probe.writeToRAM
  cases buffer with
  | none => exact ⟨rfl, rfl⟩
  | some buf =>
    by_cases hg : p.m_PID ≤ 0 ∨ size = 0 ∨ p.m_emuRAMAddressStart = 0
    · simp only [if_pos hg, and_self]
    · simp only [if_neg hg, and_self]

theorem facade_with_instance (f : FlycastAccessor) (p : Probe) (hi : f.m_instance = some p) :
    { f with m_instance := some p } = f := by
  cases f
  simp only at hi
  simp [hi]

theorem facade_read_call {σ : Type} (h : Host σ) (f : FlycastAccessor) (w : σ)
    (offset size : Nat) (buffer : Option (List Byte)) (withBSwap : Bool) :
    (f.readFromRAMCall h w offset buffer size withBSwap).1 = f ∧
    (f.readFromRAMCall h w offset buffer size withBSwap).2 =
      f.readFromRAM h w offset buffer size withBSwap := by
  unfold FlycastAccessor.readFromRAMCall FlycastAccessor.readFromRAM
  cases hi : f.m_instance with
  | none => exact ⟨rfl, rfl⟩
  | some p =>
    by_cases hs : f.m_status ≠ FlycastStatus.hooked
    · simp only [if_pos hs, and_self]
    · obtain ⟨h1, h2⟩ := probe_read_call σ h p w offset size buffer withBSwap
      simp only [if_neg hs, h1, h2, and_true]
      exact facade_with_instance f p hi

theorem facade_write_call {σ : Type} (h : Host σ) (f : FlycastAccessor) (w : σ)
    (offset size : Nat) (buffer : Option (List Byte)) (withBSwap : Bool) :
    (f.writeToRAMCall h w offset buffer size withBSwap).1 = f ∧
    (f.writeToRAMCall h w offset buffer size withBSwap).2 =
      f.writeToRAM h w offset buffer size withBSwap := by
  unfold FlycastAccessor.writeToRAMCall FlycastAccessor.writeToRAM
  cases hi : f.m_instance with
  | none => exact ⟨rfl, rfl⟩
  | some p =>
    by_cases hs : f.m_status ≠ FlycastStatus.hooked
    · simp only [if_pos hs, and_self]
    · obtain ⟨h1, h2⟩ := probe_write_call σ h p w offset size buffer withBSwap
      simp only [if_neg hs, h1, h2, and_true]
      exact facade_with_instance f p hi

theorem facade_read_entire_call {σ : Type} (h : Host σ) (f : FlycastAccessor) (w : σ)
    (buffer : Option (List Byte)) :
    (f.readEntireRAMCall h w buffer).1 = f ∧
    (f.readEntireRAMCall h w buffer).2 = f.readEntireRAM h w buffer := by
  unfold FlycastAccessor.readEntireRAMCall FlycastAccessor.readEntireRAM
  cases hi : f.m_instance with
  | none => exact ⟨rfl, rfl⟩
  | some p =>
    by_cases hs : f.m_status ≠ FlycastStatus.hooked
    · simp only [if_pos hs, and_self]
    · obtain ⟨h1, h2⟩ := facade_read_call h f w 0 f.getRAMTotalSize buffer false
      simp only [if_neg hs, h1, h2]
      by_cases hr : (f.readFromRAM h w 0 buffer f.getRAMTotalSize false).1 = false
      · simp only [if_pos hr, and_self]
      · simp only [if_neg hr, and_self]

theorem run_keeps_ram_nonzero {σ : Type} (h : Host σ) (calls : List (FacadeCall σ)) :
    ∀ f : FlycastAccessor,
      (f.m_status = FlycastStatus.hooked → f.getRAMAddressStart ≠ 0) →
      (∀ w ∈ hookWorlds calls, NoRegionAtZero h w) →
      (f.run h calls).m_status = FlycastStatus.hooked →
      (f.run h calls).getRAMAddressStart ≠ 0 := by
  induction calls with
  | nil => intro f hf _ hs; exact hf hs
  | cons c rest ih =>
    intro f hf hw
    unfold FlycastAccessor.run
    rw [List.foldl_cons]
    cases c with
    | hook w =>
      refine ih _ (hook_hooked_ram h f w (hw w ?_)) (fun x hx => hw x ?_)
      · simp [hookWorlds]
      · simp [hookWorlds, hx]
    | unHook =>
      refine ih _ ?_ (fun x hx => hw x (by simpa [hookWorlds] using hx))
      intro hs
      simp [FlycastAccessor.step, FlycastAccessor.unHook] at hs
    | readFromRAM w o b n sw =>
      have hstep : f.step h (FacadeCall.readFromRAM w o b n sw) = f :=
        (facade_read_call h f w o n b sw).1
      rw [hstep]
      exact ih _ hf (fun x hx => hw x (by simpa [hookWorlds] using hx))
    | writeToRAM w o b n sw =>
      have hstep : f.step h (FacadeCall.writeToRAM w o b n sw) = f :=
        (facade_write_call h f w o n b sw).1
      rw [hstep]
      exact ih _ hf (fun x hx => hw x (by simpa [hookWorlds] using hx))
    | readEntireRAM w b =>
      have hstep : f.step h (FacadeCall.readEntireRAM w b) = f :=
        (facade_read_entire_call h f w b).1
      rw [hstep]
      exact ih _ hf (fun x hx => hw x (by simpa [hookWorlds] using hx))

theorem happyWorld_noRegionAtZero (iter : List (Nat × Acc) → List (Nat × Acc)) :
    NoRegionAtZero (stubHost iter) happyWorld := by
  intro pid r hr
  unfold regionsOf readProcMaps stubHost at hr
  by_cases hp : pid = happyWorld.pid
  · simp only [hp, if_true] at hr
    have hall : ∀ x ∈ happyWorld.maps.filterMap keepLine, x.base ≠ 0 := by decide
    exact hall r hr
  · simp [hp] at hr

/-- C11 (amended): in every state reached from the initial state by any sequence
of calls (`hook`, `unHook` and transfers), over arbitrary probe results and region
lists none of whose regions is based at host address 0, with host addresses
computed in 64-bit wrapping arithmetic, `status == hooked` implies
`ramStart() != 0`. -/
theorem hooked_ram_nonzero {σ : Type} (h : Host σ) (calls : List (FacadeCall σ))
    (hw : ∀ w ∈ hookWorlds calls, NoRegionAtZero h w)
    (hs : (FlycastAccessor.initial.run h calls).m_status = FlycastStatus.hooked) :
    (FlycastAccessor.initial.run h calls).getRAMAddressStart ≠ 0 :=
  run_keeps_ram_nonzero h calls FlycastAccessor.initial
    (fun hi => absurd hi (by decide)) hw hs

/-- C11, an instance: hook, unhook and hook again on the happy-path world. -/
theorem hooked_ram_nonzero_witness :
    (FlycastAccessor.initial.run (stubHost id)
      [FacadeCall.hook happyWorld, FacadeCall.unHook, FacadeCall.hook happyWorld]).m_status =
      FlycastStatus.hooked ∧
    (FlycastAccessor.initial.run (stubHost id)
      [FacadeCall.hook happyWorld, FacadeCall.unHook,
        FacadeCall.hook happyWorld]).getRAMAddressStart ≠ 0 :=
  ⟨by decide,
   hooked_ram_nonzero (stubHost id)
     [FacadeCall.hook happyWorld, FacadeCall.unHook, FacadeCall.hook happyWorld]
     (by
       intro w hw
       simp only [hookWorlds, List.mem_cons, List.mem_singleton, List.not_mem_nil,
         or_false, or_self] at hw
       rw [hw]
       exact happyWorld_noRegionAtZero id)
     (by decide)⟩

/-- C11, as stated, fails: the target has a region based at address 0 and one at
`0xFFFF_FFFF_F800_0000`; the candidate `0xFFFF_FFFF_F400_0000` has two votes and
passes the gate, the probe read at address 0 succeeds, and a single `hook` from the
initial state ends `hooked` with `ramStart() == 0`. -/
theorem hooked_with_zero_ram :
    arenaOf (stubHost id) wrapWorld 4242 = some 0xFFFFFFFFF4000000 ∧
    (FlycastAccessor.initial.run (stubHost id) [FacadeCall.hook wrapWorld]).m_status =
      FlycastStatus.hooked ∧
    (FlycastAccessor.initial.run (stubHost id)
      [FacadeCall.hook wrapWorld]).getRAMAddressStart = 0 := by
  decide

/-- C12: from every facade state, `unHook` leaves `status() == notRunning`, no probe
instance (the one pointed to, if any, is deleted), `pid() == -1`, `ramStart() == 0`,
`aramStart() == 0` and `aramAccessible() == false`. -/
theorem unHook_resets (f : FlycastAccessor) :
    f.unHook.getStatus = FlycastStatus.notRunning ∧
    f.unHook.m_instance = none ∧
    f.unHook.liveProbes = f.liveProbes - (if f.m_instance.isSome then 1 else 0) ∧
    f.unHook.getPID = -1 ∧
    f.unHook.getRAMAddressStart = 0 ∧
    f.unHook.getARAMAddressStart = 0 ∧
    f.unHook.isARAMAccessible = false := by
  refine ⟨rfl, rfl, ?_, rfl, rfl, rfl, rfl⟩
  unfold FlycastAccessor.unHook
  cases f.m_instance <;> simp

/-- C12, an instance: the facade hooked on the happy-path world reports PID 4242
and the main-RAM address; after `unHook` everything is reset. -/
theorem unHook_resets_witness :
    (FlycastAccessor.initial.hook (stubHost id) happyWorld).1.observe =
      (FlycastStatus.hooked, 4242, 0x10C000000, 0x120000000, true) ∧
    (FlycastAccessor.initial.hook (stubHost id) happyWorld).1.unHook.observe =
      (FlycastStatus.notRunning, -1, 0, 0, false) ∧
    (FlycastAccessor.initial.hook (stubHost id) happyWorld).1.unHook.liveProbes = 0 :=
  ⟨by decide,
   by
     obtain ⟨h1, _, _, h4, h5, h6, h7⟩ :=
       unHook_resets (FlycastAccessor.initial.hook (stubHost id) happyWorld).1
     simp only [FlycastAccessor.observe, h1, h4, h5, h6, h7],
   by decide⟩

/-- C13: `readFromRAM`, `writeToRAM` and `readEntireRAM` leave the attachment as it
was. For every host, state and argument, on every path through the facade method
and the probe method it delegates to (refusal by the facade, refusal by the probe, a
short or errored transfer, success), `status()`, `pid()`, `ramStart()`,
`aramStart()` and `aramAccessible()` are the same after the call as before it; the
call sequence of the state machine passes through the same transitions. -/
theorem transfers_keep_attachment {σ : Type} (h : Host σ) (f : FlycastAccessor) (w : σ)
    (offset size : Nat) (buffer : Option (List Byte)) (withBSwap : Bool) :
    (f.readFromRAMCall h w offset buffer size withBSwap).1.observe = f.observe ∧
    (f.writeToRAMCall h w offset buffer size withBSwap).1.observe = f.observe ∧
    (f.readEntireRAMCall h w buffer).1.observe = f.observe ∧
    (f.step h (FacadeCall.readFromRAM w offset buffer size withBSwap)).observe = f.observe ∧
    (f.step h (FacadeCall.writeToRAM w offset buffer size withBSwap)).observe = f.observe ∧
    (f.step h (FacadeCall.readEntireRAM w buffer)).observe = f.observe := by
  have h1 := (facade_read_call h f w offset size buffer withBSwap).1
  have h2 := (facade_write_call h f w offset size buffer withBSwap).1
  have h3 := (facade_read_entire_call h f w buffer).1
  refine ⟨by rw [h1], by rw [h2], by rw [h3], ?_, ?_, ?_⟩
  · show (f.readFromRAMCall h w offset buffer size withBSwap).1.observe = f.observe
    rw [h1]
  · show (f.writeToRAMCall h w offset buffer size withBSwap).1.observe = f.observe
    rw [h2]
  · show (f.readEntireRAMCall h w buffer).1.observe = f.observe
    rw [h3]

/-- C13, an instance: the facade is hooked on the happy-path world, then a read of
four bytes is cut short by the system (three bytes instead of four) and returns
false; the attachment is still `hooked` with the same PID and addresses. -/
theorem transfers_keep_attachment_witness :
    ((FlycastAccessor.initial.hook (stubHost id) happyWorld).1.readFromRAMCall (stubHost id)
      shortWorld 0 (some [0, 0, 0, 0]) 4 false).2.1 = false ∧
    ((FlycastAccessor.initial.hook (stubHost id) happyWorld).1.readFromRAMCall (stubHost id)
      shortWorld 0 (some [0, 0, 0, 0]) 4 false).1.observe =
      (FlycastStatus.hooked, 4242, 0x10C000000, 0x120000000, true) :=
  ⟨by decide,
   (transfers_keep_attachment (stubHost id)
      (FlycastAccessor.initial.hook (stubHost id) happyWorld).1 shortWorld 0 4
      (some [0, 0, 0, 0]) false).1.trans (by decide)⟩

/-! ## Process discovery -/

theorem scanProc_eq_firstMatch (ov : Option String) (es : List (Int × String)) :
    scanProc ov es = firstMatch (nameMatches ov) es := by
  induction es with
  | nil => rfl
  | cons e rest ih => simp [scanProc, firstMatch, ih]

/-- The Linux half of the first-match rule: `LinuxFlycastProcess::findPID` sets the
PID to that of the first matching entry, and to -1 when none matches. -/
theorem linux_findPID_first {σ : Type} (h : Host σ) (w : σ) (p : Probe)
    (es : List (Int × String)) (he : h.procEntries w = some es) :
    (findPID h w p).2.m_PID = (firstMatch (nameMatches (h.envOverride w)) es).getD (-1) ∧
    (firstMatch (nameMatches (h.envOverride w)) es = none → (findPID h w p).1 = false) := by
  unfold findPID
  rw [he]
  constructor
  · simp [scanProc_eq_firstMatch]
  · intro hn
    simp [scanProc_eq_firstMatch, hn]

/-- C14, the code at the failing input: with `FME_FLYCAST_PROCESS_NAME=custom-emu`
in the environment and the processes `flycast` (PID 100) and `custom-emu` (PID 200)
running, the Linux and the macOS `findPID` read `DME_FLYCAST_PROCESS_NAME`, find no
override, and settle on `flycast`; `custom-emu` does not match. -/
theorem override_ignored_on_linux_and_mac :
    getenv overrideWorld.environ "FME_FLYCAST_PROCESS_NAME" = some "custom-emu" ∧
    (stubHost id).envOverride overrideWorld = none ∧
    findPID (stubHost id) overrideWorld {} = (true, { m_PID := 100 }) ∧
    macFindPID (stubHost id) overrideWorld {} = (true, { m_PID := 100 }) ∧
    nameMatches ((stubHost id).envOverride overrideWorld) "custom-emu" = false ∧
    macNameMatches ((stubHost id).envOverride overrideWorld) "custom-emu" = false := by
  decide

/-- C15, the code at the failing input: with the processes `Flycast` (PID 100) and
`flycast` (PID 200) enumerated in that order, the first matching entry is PID 100
but `MacFlycastProcess::findPID`, whose loop does not stop at a match, ends with
PID 200. -/
theorem mac_findPID_keeps_last_match :
    firstMatch (macNameMatches ((stubHost id).envOverride twoMatchWorld))
      twoMatchWorld.procs = some 100 ∧
    macFindPID (stubHost id) twoMatchWorld {} = (true, { m_PID := 200 }) := by
  decide

/-! ## The Windows region filter -/

theorem isReadableCommittedRegion_iff (mbi : MemoryBasicInformation) :
    isReadableCommittedRegion mbi = true ↔
      mbi.State = MEM_COMMIT ∧ mbi.Protect ≠ PAGE_NOACCESS ∧
        mbi.Protect &&& PAGE_GUARD = 0 ∧ (mbi.Typ = MEM_PRIVATE ∨ mbi.Typ = MEM_MAPPED) := by
  unfold isReadableCommittedRegion
  by_cases hs : mbi.State = MEM_COMMIT
  · by_cases hp : mbi.Protect = PAGE_NOACCESS
    · simp [hs, hp]
    · by_cases hg : mbi.Protect &&& PAGE_GUARD = 0
      · simp [hs, hp, hg]
      · simp [hs, hp, hg]
  · simp [hs]

/-- C16 (amended): for every `MEMORY_BASIC_INFORMATION` value that
`isReadableCommittedRegion` accepts, `State == MEM_COMMIT`, the `PAGE_GUARD` flag is
clear, `Protect != PAGE_NOACCESS` and `Type` is `MEM_PRIVATE` or `MEM_MAPPED`. -/
theorem retained_region_committed (mbi : MemoryBasicInformation)
    (h : isReadableCommittedRegion mbi = true) :
    mbi.State = MEM_COMMIT ∧ mbi.Protect &&& PAGE_GUARD = 0 ∧
      mbi.Protect ≠ PAGE_NOACCESS ∧ (mbi.Typ = MEM_PRIVATE ∨ mbi.Typ = MEM_MAPPED) := by
  obtain ⟨h1, h2, h3, h4⟩ := (isReadableCommittedRegion_iff mbi).mp h
  exact ⟨h1, h3, h2, h4⟩

/-- C16, an instance: a committed, private, read-write region. -/
theorem retained_region_committed_witness :
    isReadableCommittedRegion ⟨MEM_COMMIT, PAGE_READWRITE, MEM_PRIVATE⟩ = true ∧
    (MEM_COMMIT = MEM_COMMIT ∧ PAGE_READWRITE &&& PAGE_GUARD = 0 ∧
      PAGE_READWRITE ≠ PAGE_NOACCESS ∧ (MEM_PRIVATE = MEM_PRIVATE ∨ MEM_PRIVATE = MEM_MAPPED)) :=
  ⟨by decide, retained_region_committed ⟨MEM_COMMIT, PAGE_READWRITE, MEM_PRIVATE⟩ (by decide)⟩

/-- C16, as stated, fails: a committed private region that is read-only
(`PAGE_READONLY`) or execute-only (`PAGE_EXECUTE`) is accepted although its
protection does not grant read and write access. -/
theorem readonly_region_retained :
    isReadableCommittedRegion ⟨MEM_COMMIT, PAGE_READONLY, MEM_PRIVATE⟩ = true ∧
    grantsReadWrite PAGE_READONLY = false ∧
    isReadableCommittedRegion ⟨MEM_COMMIT, PAGE_EXECUTE, MEM_PRIVATE⟩ = true ∧
    grantsReadWrite PAGE_EXECUTE = false := by
  decide

/-! ## Probe instances -/

theorem hook_liveProbes {σ : Type} (h : Host σ) (f : FlycastAccessor) (w : σ) :
    (f.hook h w).1.liveProbes = f.liveProbes + 1 ∧ (f.hook h w).1.m_instance.isSome = true := by
  unfold FlycastAccessor.hook
  by_cases hfp : (findPID h w {}).1 = false
  · simp [hfp, FlycastAccessor.init]
  · by_cases ho : (obtainEmuRAMInformations h w (findPID h w {}).2).1 = false
    · simp [hfp, ho, FlycastAccessor.init]
    · simp [hfp, ho, FlycastAccessor.init]

/-- C17, the code at the failing input: two `hook` calls in a row on the
happy-path world leave two probe instances allocated, only the second of which the
facade still points to; a following `unHook` deletes that one and leaves the first
allocated with no pointer to it. -/
theorem double_hook_leaks :
    (FlycastAccessor.initial.run (stubHost id)
      [FacadeCall.hook happyWorld, FacadeCall.hook happyWorld]).liveProbes = 2 ∧
    (FlycastAccessor.initial.run (stubHost id)
      [FacadeCall.hook happyWorld, FacadeCall.hook happyWorld, FacadeCall.unHook]).liveProbes
      = 1 ∧
    (FlycastAccessor.initial.run (stubHost id)
      [FacadeCall.hook happyWorld, FacadeCall.hook happyWorld, FacadeCall.unHook]).m_instance
      = none := by
  decide

/-! ## Guest addresses -/

/-- C18: for every guest address `a`, in every state of the facade,
`isValidConsoleAddress(a)` holds exactly when `a < getRAMTotalSize()`, and
`getRAMTotalSize()` is 16777216; `0x00FFFFFF` is valid, `0x01000000` and
`0xFFFFFFFF` are not. -/
theorem valid_console_address (f : FlycastAccessor) (a : Nat) :
    (f.isValidConsoleAddress a = true ↔ a < f.getRAMTotalSize) ∧
    f.getRAMTotalSize = 16777216 ∧
    f.isValidConsoleAddress 0x00FFFFFF = true ∧
    f.isValidConsoleAddress 0x01000000 = false ∧
    f.isValidConsoleAddress 0xFFFFFFFF = false := by
  refine ⟨?_, rfl, ?_, ?_, ?_⟩ <;>
    simp [FlycastAccessor.isValidConsoleAddress, FlycastAccessor.getRAMTotalSize]

/-! ## Candidate selection -/

theorem mem_keys_iff (regs : List Region) (k : Nat) :
    k ∈ (buildCand regs).map Prod.fst ↔ tally k regs ≠ ⟨0, 0, 0⟩ := by
  rw [List.mem_map]
  constructor
  · rintro ⟨⟨k2, acc⟩, hmem, hk⟩
    simp only at hk
    subst hk
    exact ((mem_buildCand_iff regs k2 acc).mp hmem).1
  · intro h
    exact ⟨(k, tally k regs), (mem_buildCand_iff regs k _).mpr ⟨h, rfl⟩, rfl⟩

theorem tally_ne_zero_iff (regs : List Region) (k : Nat) :
    tally k regs ≠ ⟨0, 0, 0⟩ ↔
      ∃ r ∈ regs, sub64 r.base OFF_VRAM = k ∨ sub64 r.base OFF_MAIN = k ∨
        sub64 r.base OFF_AICA = k := by
  have hv := tally_v_pos k regs
  have hm := tally_m_pos k regs
  have ha := tally_a_pos k regs
  constructor
  · intro h
    have hpos : 0 < (tally k regs).v ∨ 0 < (tally k regs).m ∨ 0 < (tally k regs).a := by
      by_contra hc
      apply h
      have h1 : (tally k regs).v = 0 := by omega
      have h2 : (tally k regs).m = 0 := by omega
      have h3 : (tally k regs).a = 0 := by omega
      cases hT : tally k regs with
      | mk v m a => rw [hT] at h1 h2 h3; simp only at h1 h2 h3; rw [h1, h2, h3]
    rcases hpos with h1 | h1 | h1
    · obtain ⟨r, hr, e⟩ := hv.mp h1; exact ⟨r, hr, Or.inl e⟩
    · obtain ⟨r, hr, e⟩ := hm.mp h1; exact ⟨r, hr, Or.inr (Or.inl e)⟩
    · obtain ⟨r, hr, e⟩ := ha.mp h1; exact ⟨r, hr, Or.inr (Or.inr e)⟩
  · rintro ⟨r, hr, e | e | e⟩ h0
    · have := hv.mpr ⟨r, hr, e⟩; rw [h0] at this; exact absurd this (by decide)
    · have := hm.mpr ⟨r, hr, e⟩; rw [h0] at this; exact absurd this (by decide)
    · have := ha.mpr ⟨r, hr, e⟩; rw [h0] at this; exact absurd this (by decide)

/-- C19: candidate selection, whatever the iteration order of the candidate map.
The candidates are the region bases minus one of the three offsets. The
triangulator returns found exactly when some candidate `k ≠ 0` has both its VRAM and
its MAIN target inside a listed region and score `(v>0)+(m>0)+(a>0) ≥ 2`; and the
base it returns is such a candidate whose score is the maximum over all nonzero
candidates passing the gate. -/
theorem triangulate_selects_best (regs : List Region) (iter : List (Nat × Acc))
    (hp : iter.Perm (buildCand regs)) :
    (∀ k, k ∈ (buildCand regs).map Prod.fst ↔
      ∃ r ∈ regs, sub64 r.base OFF_VRAM = k ∨ sub64 r.base OFF_MAIN = k ∨
        sub64 r.base OFF_AICA = k) ∧
    ((∃ B, triangulateIter regs iter = some B) ↔
      ∃ k, k ∈ (buildCand regs).map Prod.fst ∧ k ≠ 0 ∧
        addressInRegionList (add64 k OFF_VRAM) regs = true ∧
        addressInRegionList (add64 k OFF_MAIN) regs = true ∧ 2 ≤ candScore regs k) ∧
    (∀ B, triangulateIter regs iter = some B →
      B ∈ (buildCand regs).map Prod.fst ∧ B ≠ 0 ∧
      addressInRegionList (add64 B OFF_VRAM) regs = true ∧
      addressInRegionList (add64 B OFF_MAIN) regs = true ∧ 2 ≤ candScore regs B ∧
      ∀ k, k ∈ (buildCand regs).map Prod.fst → k ≠ 0 →
        addressInRegionList (add64 k OFF_VRAM) regs = true →
        addressInRegionList (add64 k OFF_MAIN) regs = true →
        candScore regs k ≤ candScore regs B) := by
  have hfound : ∀ B, triangulateIter regs iter = some B →
      B ∈ (buildCand regs).map Prod.fst ∧ B ≠ 0 ∧
      addressInRegionList (add64 B OFF_VRAM) regs = true ∧
      addressInRegionList (add64 B OFF_MAIN) regs = true ∧ 2 ≤ candScore regs B ∧
      ∀ k, k ∈ (buildCand regs).map Prod.fst → k ≠ 0 →
        addressInRegionList (add64 k OFF_VRAM) regs = true →
        addressInRegionList (add64 k OFF_MAIN) regs = true →
        candScore regs k ≤ candScore regs B := by
    intro B hres
    obtain ⟨hg, hs, hmax⟩ := triangulate_found regs iter B hp hres
    obtain ⟨h0, hm, hv⟩ := (gateOk_iff regs B).mp hg
    refine ⟨(mem_keys_iff regs B).mpr (tally_ne_zero_of_score regs B (by omega)), h0, hv, hm,
      by rw [candScore_eq]; exact hs, ?_⟩
    intro k _ hk0 hkv hkm
    rw [candScore_eq, candScore_eq]
    exact hmax k ((gateOk_iff regs k).mpr ⟨hk0, hkm, hkv⟩)
  refine ⟨fun k => by rw [mem_keys_iff, tally_ne_zero_iff], ?_, hfound⟩
  constructor
  · rintro ⟨B, hres⟩
    obtain ⟨h1, h2, h3, h4, h5, _⟩ := hfound B hres
    exact ⟨B, h1, h2, h3, h4, h5⟩
  · rintro ⟨k, _, hk0, hkv, hkm, hks⟩
    cases hres : triangulateIter regs iter with
    | some B => exact ⟨B, rfl⟩
    | none =>
      have := triangulate_rejects regs iter hp hres k ((gateOk_iff regs k).mpr ⟨hk0, hkm, hkv⟩)
      rw [candScore_eq] at hks
      omega

/-- C19, an instance: on the happy-path list, iterated in insertion order, the base
`0x1_0000_0000` is returned, and the gated candidate `0x1_0000_0000` itself bounds
every gated candidate score. -/
theorem triangulate_selects_best_witness :
    (∃ B, triangulateIter happyRegions (buildCand happyRegions) = some B) ∧
    candScore happyRegions 0x100000000 = 3 ∧
    (∀ k, k ∈ (buildCand happyRegions).map Prod.fst → k ≠ 0 →
      addressInRegionList (add64 k OFF_VRAM) happyRegions = true →
      addressInRegionList (add64 k OFF_MAIN) happyRegions = true →
      candScore happyRegions k ≤ candScore happyRegions 0x100000000) :=
  ⟨⟨0x100000000, by decide⟩, by decide,
   ((triangulate_selects_best happyRegions (buildCand happyRegions)
      (List.Perm.refl _)).2.2 0x100000000 (by decide)).2.2.2.2.2⟩

end FlycastComm
